import Mathlib

/-!
# Verification of the EMCViewer background prefetch cache

A shallow embedding of `emcviewer/file_handler.py` (class `FileCaching`):
the directory-listing reconciliation, the foreground `get_data`, the
directory switch `change_data_dir`, and one iteration ("tick") of the
background maintenance loop `run`.

Python machine model:
* Python lists become Lean `List`s; `l[i]` with Python's negative-index
  semantics becomes `pyIdx`; `del l[i]` becomes `List.eraseIdx`;
  `l.index x` becomes `List.indexOf`; `l.sort()` becomes `mergeSort`.
* Python exceptions become explicit `PyErr` results.  Operations return
  the mutated state together with the outcome, so that the partial
  mutations performed before an exception are preserved (the real code
  mutates `self` in place).
* The decoder `sphelper.import_spimage` and the filesystem
  (`os.listdir`, `stat`) are external collaborators, modelled by an
  environment `Env`.  `mtime` is partial (a stat can fail).
-/

set_option maxRecDepth 10000

namespace EMCViewer

/-- Python exceptions that the modelled code can raise. -/
inductive PyErr where
  | valueError  -- empty listing / `max` of an empty sequence
  | indexError  -- list index out of range
  | osError     -- `pathlib.Path.stat` failure in `mtime`
  | typeError   -- subscripting / taking `len` of `None`
  deriving Repr, DecidableEq

/-- External collaborators: the filesystem and the snapshot decoder. -/
structure Env where
  listdir : String → List String
  filterMatch : String → Bool        -- `re.search(self._file_filter, f)`
  mtime : String → Option Nat        -- `pathlib.Path(p).stat().st_mtime`
  decode : String → Nat              -- `sphelper.import_spimage(p, ["image"])`

/-- The mutable state of a `FileCaching` object. -/
structure State where
  index : List Int                   -- `self.index`: cached positions
  data : List Nat                    -- `self.data`: cached payloads
  mtimes : List Nat                  -- `self.mtime`: cached modification times
  cacheLimit : Nat                   -- `self._cache_limit`
  running : Bool                     -- `self._running`
  paused : Bool                      -- `self._paused`
  fileList : Option (List String)    -- `self.file_list` (initially `None`)
  dataDir : String                   -- `self._data_dir`
  currentIndex : Int                 -- `self.current_index`
  deriving Repr, DecidableEq

/-- Python `l[i]`: negative indices address from the end; out-of-range
is an `IndexError` (`none` here). -/
def pyIdx {α : Type} (l : List α) (i : Int) : Option α :=
  if i < 0 then
    let j := i + l.length
    if j < 0 then none else l.get? j.toNat
  else
    l.get? i.toNat

/-- `os.path.join` for our purposes. -/
def pathJoin (dir name : String) : String := dir ++ "/" ++ name

/-- Python's `<=` on strings: lexicographic comparison of the code
points (what `list.sort()` uses on filenames). -/
def charListLe : List Char → List Char → Bool
  | [], _ => true
  | _ :: _, [] => false
  | a :: as, b :: bs =>
    if a.val < b.val then true
    else if b.val < a.val then false
    else charListLe as bs

def strLe (a b : String) : Bool := charListLe a.data b.data

/-- Stable insertion of one name into a sorted list. -/
def insertSorted (a : String) : List String → List String
  | [] => [a]
  | b :: l => if strLe a b then a :: b :: l else b :: insertSorted a l

/-- Python's stable `list.sort()` on filenames, as a structurally
recursive insertion sort (same result as any stable sort under the
total lexicographic order on strings). -/
def pySort (l : List String) : List String := l.foldr insertSorted []

/-- `[f for f in os.listdir(dir) if re.search(filter, f)]` followed by `.sort()`. -/
def computeListing (env : Env) (dir : String) : List String :=
  pySort ((env.listdir dir).filter env.filterMatch)

/-- The backwards reconciliation loop of `update_file_list` (lines 63-73):

    for i in range(len(self.index)):
        inv_i = original_length - i - 1
        fname = self.file_list[self.index[inv_i]]
        if fname not in new_file_list:
            del self.index[inv_i]; del self.data[inv_i]; del self.mtime[inv_i]
        else:
            self.index[inv_i] = new_file_list.index(fname)

`remapGo k` processes elements `k-1, k-2, …, 0` in that order (the code
iterates `inv_i` from the back so deletions do not shift unprocessed
entries).  Partial mutations are kept alongside a possible exception. -/
def remapGo (oldL newL : List String) :
    Nat → List Int → List Nat → List Nat →
    (List Int × List Nat × List Nat) × Option PyErr
  | 0, idx, dat, mt => ((idx, dat, mt), none)
  | k+1, idx, dat, mt =>
    match pyIdx idx (k : Int) with
    | none => ((idx, dat, mt), some .indexError)
    | some p =>
      match pyIdx oldL p with
      | none => ((idx, dat, mt), some .indexError)
      | some fname =>
        if fname ∈ newL then
          remapGo oldL newL k (idx.set k ((newL.indexOf fname : Nat) : Int)) dat mt
        else
          if k < dat.length ∧ k < mt.length then
            remapGo oldL newL k (idx.eraseIdx k) (dat.eraseIdx k) (mt.eraseIdx k)
          else
            ((idx.eraseIdx k, dat, mt), some .indexError)

/-- `FileCaching.update_file_list` (lines 48-79). -/
def update_file_list (env : Env) (s : State) : State × Except PyErr Unit :=
  let newL := computeListing env s.dataDir
  if newL = [] then
    (s, .error .valueError)  -- `raise ValueError(...)`
  else
    match s.fileList with
    | some oldL =>
      if oldL = newL then (s, .ok ())  -- identical listing: early return
      else
        match pyIdx oldL s.currentIndex with
        | none => (s, .error .indexError)  -- `self.file_list[self.current_index]`
        | some currentFileName =>
          match remapGo oldL newL s.index.length s.index s.data s.mtimes with
          | ((idx, dat, mt), some e) =>
            ({ s with index := idx, data := dat, mtimes := mt }, .error e)
          | ((idx, dat, mt), none) =>
            ({ s with index := idx, data := dat, mtimes := mt,
                      fileList := some newL,
                      currentIndex :=
                        if currentFileName ∈ newL then
                          ((newL.indexOf currentFileName : Nat) : Int)
                        else (newL.length : Int) - 1 }, .ok ())
    | none =>
      -- current_file_name = new_file_list[-1]; the remap loop would
      -- subscript `None` if any entry were resident (never the case in
      -- the real call sites: the cache is empty before the first refresh)
      if s.index.length = 0 then
        let currentFileName := newL.getLast?.getD ""
        ({ s with fileList := some newL,
                  currentIndex :=
                    if currentFileName ∈ newL then
                      ((newL.indexOf currentFileName : Nat) : Int)
                    else (newL.length : Int) - 1 }, .ok ())
      else (s, .error .typeError)

/-- `FileCaching.get_data` (lines 151-164). -/
def get_data (env : Env) (s : State) (i : Int) : State × Except PyErr Nat :=
  let s := { s with currentIndex := i }   -- `self.current_index = index` (first line)
  if i ∈ s.index then
    match pyIdx s.data ((s.index.indexOf i : Nat) : Int) with
    | none => (s, .error .indexError)
    | some d => (s, .ok d)
  else
    match s.fileList with
    | none => (s, .error .typeError)
    | some l =>
      match pyIdx l i with
      | none => (s, .error .indexError)   -- `self.file_list[index]`
      | some fname =>
        let path := pathJoin s.dataDir fname
        let d := env.decode path
        let s := { s with index := s.index ++ [i], data := s.data ++ [d] }
        match env.mtime path with
        | none => (s, .error .osError)    -- raise inside `self.mtime.append(mtime(filename))`
        | some m => ({ s with mtimes := s.mtimes ++ [m] }, .ok d)

/-- `FileCaching.change_data_dir` (lines 31-46). -/
def change_data_dir (env : Env) (s : State) (newDir : String) : State × Except PyErr Unit :=
  let s := { s with dataDir := newDir, index := [], data := [], mtimes := [] }
  match update_file_list env s with
  | (s, .error e) => (s, .error e)
  | (s, .ok ()) =>
    match s.fileList with
    | none => (s, .error .typeError)
    | some l =>
      match pyIdx l s.currentIndex with
      | none => (s, .error .indexError)
      | some fname =>
        let path := pathJoin s.dataDir fname
        let d := env.decode path
        let s := { s with index := s.index ++ [s.currentIndex], data := s.data ++ [d] }
        match env.mtime path with
        | none => (s, .error .osError)
        | some m => ({ s with mtimes := s.mtimes ++ [m] }, .ok ())

/-- `FileCaching.__init__` (lines 14-29): fresh state followed by the
first listing refresh. -/
def initState (env : Env) (dataDir : String) (cacheLimit : Nat) :
    State × Except PyErr Unit :=
  let s : State :=
    { index := [], data := [], mtimes := [], cacheLimit := cacheLimit,
      running := true, paused := false, fileList := none,
      dataDir := dataDir, currentIndex := 10 }
  update_file_list env s

/-- `FileCaching.pause`. -/
def pause (s : State) : State := { s with paused := true }

/-- `FileCaching.unpause`. -/
def unpause (s : State) : State := { s with paused := false }

/-! ## One iteration of the background maintenance loop (`FileCaching.run`) -/

/-- How one tick of `run` ended. `loaded b` means the final load was
performed, with `b = true` when the candidate search had been abandoned
via its `break` (candidate distance exceeded the cache limit) before the
load. -/
inductive TickOutcome where
  | paused      -- the `if self._paused` branch slept and restarted
  | allCached   -- `len(self.index) >= len(self.file_list)`: sleep, continue
  | abandoned   -- the search result was out of range: bare `continue`
  | rejected    -- cache full and candidate not closer: sleep, continue
  | loaded (afterBreak : Bool)
  deriving Repr, DecidableEq

/-- Result of one tick: it either completes (`done`), lets a Python
exception propagate out of `run` (`raised`, killing the thread), or
never finishes because the candidate-search `while` loop spins forever
(`diverged`: the search exhausts every amount of fuel). -/
inductive TickResult where
  | diverged
  | raised (s : State) (e : PyErr)
  | done (s : State) (out : TickOutcome)
  deriving Repr, DecidableEq

/-- The stale-entry invalidation loop of `run` (lines 89-101), iterating
backwards over the resident entries. -/
def invalidateGo (env : Env) (dir : String) (fl : Option (List String)) :
    Nat → List Int → List Nat → List Nat →
    (List Int × List Nat × List Nat) × Option PyErr
  | 0, idx, dat, mt => ((idx, dat, mt), none)
  | k+1, idx, dat, mt =>
    match pyIdx idx (k : Int) with
    | none => ((idx, dat, mt), some .indexError)
    | some p =>
      match fl with
      | none => ((idx, dat, mt), some .typeError)
      | some l =>
        match pyIdx l p with
        | none => ((idx, dat, mt), some .indexError)
        | some fname =>
          match env.mtime (pathJoin dir fname) with
          | none => ((idx, dat, mt), some .osError)
          | some m =>
            match pyIdx mt (k : Int) with
            | none => ((idx, dat, mt), some .indexError)
            | some stored =>
              if stored ≠ m then
                if k < dat.length then
                  invalidateGo env dir fl k (idx.eraseIdx k) (dat.eraseIdx k) (mt.eraseIdx k)
                else ((idx.eraseIdx k, dat, mt), some .indexError)
              else invalidateGo env dir fl k idx dat mt

/-- The mirrored candidate search of `run` (lines 110-117):

    while (load_index in self.index or load_index < 0
           or load_index >= len(self.file_list)):
        load_index = (2*self.current_index - load_index
                      + (1 if load_index < self.current_index else 0))
        if abs(load_index - self.current_index) > self._cache_limit:
            break

Fueled; `none` models the `while` loop spinning forever beyond any given
number of iterations.  On exit, the `Bool` records whether the loop left
via `break`. -/
def searchLoop (cond : Int → Bool) (c : Int) (limit : Nat) :
    Nat → Int → Option (Int × Bool)
  | 0, _ => none
  | fuel+1, l =>
    if cond l then
      let l2 := 2*c - l + (if l < c then 1 else 0)
      if limit < (l2 - c).natAbs then some (l2, true)
      else searchLoop cond c limit fuel l2
    else some (l, false)

/-- One round of "evict the resident entry farthest from the current
position" (the shared body of lines 123-128 and 135-141). -/
def evictFarthest (c : Int) (idx : List Int) (dat mt : List Nat) :
    (List Int × List Nat × List Nat) × Option PyErr :=
  let distance := idx.map (fun i => (i - c).natAbs)
  match distance.max? with
  | none => ((idx, dat, mt), some .valueError)   -- `max([])` raises
  | some maxD =>
    let j := distance.indexOf maxD               -- first occurrence, as `.index`
    if j < dat.length ∧ j < mt.length then
      ((idx.eraseIdx j, dat.eraseIdx j, mt.eraseIdx j), none)
    else
      ((idx.eraseIdx j, dat, mt), some .indexError)

/-- The hard-capacity eviction loop of `run` (lines 123-128):
`while len(self.index) > self._cache_limit: <evict farthest>`.
Structurally recursive on `fuel`; a caller supplying
`fuel = idx.length` can never hit the fuel-exhaustion base case while
the loop guard still holds, because each successful round removes one
entry (`evictFarthest_ok_length`), so the embedding is exact. -/
def trimLoop (limit : Nat) (c : Int) :
    Nat → List Int → List Nat → List Nat →
    (List Int × List Nat × List Nat) × Option PyErr
  | 0, idx, dat, mt => ((idx, dat, mt), none)
  | fuel+1, idx, dat, mt =>
    if limit < idx.length then
      match evictFarthest c idx dat mt with
      | (t, some e) => (t, some e)
      | (t, none) => trimLoop limit c fuel t.1 t.2.1 t.2.2
    else ((idx, dat, mt), none)

/-- The final load of a tick (lines 144-149): decode the candidate's
file and append (position, payload, mtime). -/
def loadPhase (env : Env) (s : State) (l : List String) (loadIndex : Int)
    (broke : Bool) : TickResult :=
  match pyIdx l loadIndex with
  | none => .raised s .indexError
  | some fname =>
    let path := pathJoin s.dataDir fname
    let d := env.decode path
    let s := { s with index := s.index ++ [loadIndex], data := s.data ++ [d] }
    match env.mtime path with
    | none => .raised s .osError
    | some m => .done { s with mtimes := s.mtimes ++ [m] } (.loaded broke)

/-- Lines 123-149 of `run`: hard-capacity trim, the at-capacity
usefulness check, then the load. -/
def evictAndLoad (env : Env) (s : State) (l : List String) (loadIndex : Int)
    (broke : Bool) : TickResult :=
  match trimLoop s.cacheLimit s.currentIndex s.index.length s.index s.data s.mtimes with
  | (t, some e) => .raised { s with index := t.1, data := t.2.1, mtimes := t.2.2 } e
  | ((idx, dat, mt), none) =>
    let s := { s with index := idx, data := dat, mtimes := mt }
    if s.index.length = s.cacheLimit then
      let distance := s.index.map (fun i => (i - s.currentIndex).natAbs)
      match distance.max? with
      | none => .raised s .valueError
      | some maxD =>
        if maxD ≤ (loadIndex - s.currentIndex).natAbs then .done s .rejected
        else
          match evictFarthest s.currentIndex s.index s.data s.mtimes with
          | (t, some e) =>
            .raised { s with index := t.1, data := t.2.1, mtimes := t.2.2 } e
          | (t, none) =>
            loadPhase env { s with index := t.1, data := t.2.1, mtimes := t.2.2 }
              l loadIndex broke
    else loadPhase env s l loadIndex broke

/-- One full iteration ("tick") of the background loop `FileCaching.run`
(lines 81-149).  `fuel` bounds the candidate-search `while` loop only;
the result is `diverged` when that loop fails to finish within it. -/
def tick (env : Env) (fuel : Nat) (s : State) : TickResult :=
  if s.paused then .done s .paused
  else
    match invalidateGo env s.dataDir s.fileList s.index.length s.index s.data s.mtimes with
    | ((idx, dat, mt), some e) =>
      .raised { s with index := idx, data := dat, mtimes := mt } e
    | ((idx, dat, mt), none) =>
      let s := { s with index := idx, data := dat, mtimes := mt }
      let loadIndex0 := s.currentIndex + 1   -- computed before the refresh
      match update_file_list env s with
      | (s, .error e) => .raised s e
      | (s, .ok ()) =>
        match s.fileList with
        | none => .raised s .typeError
        | some l =>
          if l.length ≤ s.index.length then .done s .allCached
          else
            let cond := fun (x : Int) =>
              decide (x ∈ s.index) || decide (x < 0) || decide ((l.length : Int) ≤ x)
            match searchLoop cond s.currentIndex s.cacheLimit fuel loadIndex0 with
            | none => .diverged
            | some (loadIndex, broke) =>
              if loadIndex < 0 ∨ (l.length : Int) ≤ loadIndex then .done s .abandoned
              else evictAndLoad env s l loadIndex broke

/-! ## Specification-side definitions (for comparison with the code) -/

/-- Modelled from the spec (§4.1 step 4): the per-entry reconciliation
rule.  An entry `(position, payload, mtime)` resolves its filename via
the old listing; it is dropped when the filename is gone from the new
listing, and otherwise its position is rewritten to the filename's new
index. -/
def specRemapEntry (oldL newL : List String) (e : Int × Nat × Nat) :
    Option (Int × Nat × Nat) :=
  match pyIdx oldL e.1 with
  | none => none
  | some fname =>
    if fname ∈ newL then some (((newL.indexOf fname : Nat) : Int), e.2.1, e.2.2)
    else none

/-- The candidate-search loop of a tick runs forever on this input:
no amount of fuel makes `tick` finish. -/
def tickDiverges (env : Env) (s : State) : Prop :=
  ∀ fuel : Nat, tick env fuel s = .diverged

/-- The position well-formedness invariant: a listing is present and
non-empty, every cached position and the current position are valid
0-based indices into it, and the three parallel cache lists have equal
length. -/
def PosInv (s : State) : Prop :=
  ∃ L, s.fileList = some L ∧ L ≠ [] ∧
    (∀ p ∈ s.index, 0 ≤ p ∧ p < (L.length : Int)) ∧
    0 ≤ s.currentIndex ∧ s.currentIndex < (L.length : Int) ∧
    s.index.length = s.data.length ∧ s.index.length = s.mtimes.length

/-- States reachable from construction through the public operations and
background ticks, under the amended usage discipline: `get` is called
only with positions in `[0, len(listing))`, and every `stat` succeeds
(`mtime` is total) during construction, `get`, `change_data_dir` and
ticks.  Listing refreshes run in arbitrary environments (directory
contents may change arbitrarily between steps). -/
inductive Reachable : State → Prop where
  | construct (env : Env) (d : String) (lim : Nat) (s : State) :
      (∀ pa, (env.mtime pa).isSome) →
      initState env d lim = (s, .ok ()) → Reachable s
  | get (env : Env) (s s' : State) (p : Int) (r : Except PyErr Nat) :
      Reachable s → (∀ pa, (env.mtime pa).isSome) →
      0 ≤ p → (∀ L, s.fileList = some L → p < (L.length : Int)) →
      get_data env s p = (s', r) → Reachable s'
  | refresh (env : Env) (s s' : State) (r : Except PyErr Unit) :
      Reachable s → update_file_list env s = (s', r) → Reachable s'
  | changeDir (env : Env) (s s' : State) (d : String) (r : Except PyErr Unit) :
      Reachable s → (∀ pa, (env.mtime pa).isSome) →
      change_data_dir env s d = (s', r) → Reachable s'
  | bgTickDone (env : Env) (fuel : Nat) (s s' : State) (out : TickOutcome) :
      Reachable s → (∀ pa, (env.mtime pa).isSome) →
      tick env fuel s = .done s' out → Reachable s'
  | bgTickRaised (env : Env) (fuel : Nat) (s s' : State) (e : PyErr) :
      Reachable s → (∀ pa, (env.mtime pa).isSome) →
      tick env fuel s = .raised s' e → Reachable s'
  | setPaused (s : State) (b : Bool) :
      Reachable s → Reachable { s with paused := b }

/-! ## Concrete environments and states for counterexamples and witnesses -/

/-- Directory `d` holding files `b`, `c`; every stat returns 5, every
decode returns 7. -/
def envBC : Env := ⟨fun _ => ["b", "c"], fun _ => true, fun _ => some 5, fun _ => 7⟩

/-- Directory `d` holding files `a`, `b`, `c`. -/
def envABC : Env := ⟨fun _ => ["a", "b", "c"], fun _ => true, fun _ => some 5, fun _ => 7⟩

/-- Directory `d` holding files `a`, `b`. -/
def envAB : Env := ⟨fun _ => ["a", "b"], fun _ => true, fun _ => some 5, fun _ => 7⟩

/-- Directory `d` holding a single file `a`. -/
def envA : Env := ⟨fun _ => ["a"], fun _ => true, fun _ => some 5, fun _ => 7⟩

/-- Directory `d` holding ten files `a0` … `a9`. -/
def envTen : Env :=
  ⟨fun _ => ["a0", "a1", "a2", "a3", "a4", "a5", "a6", "a7", "a8", "a9"],
   fun _ => true, fun _ => some 5, fun _ => 7⟩

/-- The same directory after `a3` … `a9` were replaced by `b3` … `b6`:
`a9` (still resident in the cache) now stats with a different
modification time, and the listing holds seven names. -/
def envSeven : Env :=
  ⟨fun _ => ["a0", "a1", "a2", "b3", "b4", "b5", "b6"],
   fun _ => true, fun p => if p = "d/a9" then some 6 else some 5, fun _ => 7⟩

/-- A filesystem on which every stat fails (e.g. the file was deleted
between the listing and the stat). -/
def envNoStat : Env := ⟨fun _ => ["a", "b"], fun _ => true, fun _ => none, fun _ => 7⟩

/-- `cache_limit = 1`, listing `[a, b]`, both positions fetched by the
viewer: two resident entries, one over the limit. -/
def sOverfull : State :=
  (get_data envAB (get_data envAB (initState envAB "d" 1).1 0).1 1).1

/-- `cache_limit = 100`, listing `[a, b]`, position 0 resident. -/
def sOneCached : State := (get_data envAB (initState envAB "d" 100).1 0).1

/-- `cache_limit = 1`, listing `[b, c]`, position 0 (`b`) resident and
current — the state from which a refresh that prepends `a` makes the
candidate search spin forever. -/
def sDivStart : State := (get_data envBC (initState envBC "d" 1).1 0).1

/-- `cache_limit = 2`, listing `a0` … `a9`, positions 2 and 9 resident,
current position 9. -/
def sDupStart : State :=
  (get_data envTen (get_data envTen (initState envTen "d" 2).1 2).1 9).1

/-- The state after one tick of `sDupStart` against `envSeven`: position
2 is now resident twice. -/
def sDupEnd : State :=
  { index := [2, 2], data := [7, 7], mtimes := [5, 5], cacheLimit := 2,
    running := true, paused := false,
    fileList := some ["a0", "a1", "a2", "b3", "b4", "b5", "b6"],
    dataDir := "d", currentIndex := 6 }

/-- `cache_limit = 0`, singleton listing `[a]`, empty cache: the tick's
candidate search is abandoned out of range. -/
def sAbandonStart : State := (initState envA "d" 0).1

/-- Fresh state over the listing `[a, b, c]` (nothing cached,
current position 2). -/
def sFreshABC : State := (initState envABC "d" 100).1

/-- Fresh state over the listing `[a, b]` with `cache_limit = 1`. -/
def sFreshAB : State := (initState envAB "d" 1).1

/-- `sFreshAB` after one tick: position 0 prefetched. -/
def sTicked : State :=
  { index := [0], data := [7], mtimes := [5], cacheLimit := 1,
    running := true, paused := false, fileList := some ["a", "b"],
    dataDir := "d", currentIndex := 1 }

/-- The state after `change_data_dir` moves `sFreshABC` to directory `e`
(listing `[a, b]`): exactly one freshly loaded entry. -/
def sSwitched : State :=
  { index := [1], data := [7], mtimes := [5], cacheLimit := 100,
    running := true, paused := false, fileList := some ["a", "b"],
    dataDir := "e", currentIndex := 1 }

/-- Directory `d` now holding files `a`, `c`, `d` (`b` removed, `d`
appended) — the spec's reconciliation example. -/
def envACD : Env := ⟨fun _ => ["a", "c", "d"], fun _ => true, fun _ => some 5, fun _ => 7⟩

/-- Listing `[a, b, c]`, CurrentPosition 2 (`c`), cache holding
positions 0 and 2 (with distinguishable payloads and mtimes). -/
def sRecon : State :=
  { index := [0, 2], data := [7, 8], mtimes := [5, 6], cacheLimit := 100,
    running := true, paused := false, fileList := some ["a", "b", "c"],
    dataDir := "d", currentIndex := 2 }

/-- `sRecon` after the refresh that yields `[a, c, d]`: the entry for
`c` remapped from 2 to 1, the entry for `a` still at 0, CurrentPosition
1. -/
def sRecon2 : State :=
  { index := [0, 1], data := [7, 8], mtimes := [5, 6], cacheLimit := 100,
    running := true, paused := false, fileList := some ["a", "c", "d"],
    dataDir := "d", currentIndex := 1 }

/-- The intermediate state of the diverging tick, right after its
listing refresh: `a` was prepended, so the resident entry and the
current position both moved from 0 to 1 — while the tick's candidate
start `load_index = 0 + 1 = 1` was computed from the stale current
position.  The reflection of 1 about 1 is 1, a fixed point. -/
def sDivMid : State :=
  { index := [1], data := [7], mtimes := [5], cacheLimit := 1,
    running := true, paused := false, fileList := some ["a", "b", "c"],
    dataDir := "d", currentIndex := 1 }

/-! ## Helper lemmas -/

theorem evictFarthest_ok_length {c : Int} {idx : List Int} {dat mt : List Nat}
    {t : List Int × List Nat × List Nat}
    (h : evictFarthest c idx dat mt = (t, none)) : t.1.length + 1 = idx.length := by
  unfold evictFarthest at h
  dsimp only at h
  rcases hmax : (idx.map (fun i => (i - c).natAbs)).max? with _ | maxD
  · rw [hmax] at h; simp at h
  · rw [hmax] at h
    dsimp only at h
    have hmem : maxD ∈ idx.map (fun i => (i - c).natAbs) :=
      List.max?_mem (fun a b => max_choice a b) hmax
    have hj : (idx.map (fun i => (i - c).natAbs)).indexOf maxD <
        (idx.map (fun i => (i - c).natAbs)).length :=
      List.indexOf_lt_length.2 hmem
    rw [List.length_map] at hj
    split at h
    · have h1 := congrArg
        (fun q : (List Int × List Nat × List Nat) × Option PyErr => q.1.1.length) h
      simp only at h1
      rw [← h1]
      exact List.length_eraseIdx_add_one hj
    · have h2 := congrArg
        (fun q : (List Int × List Nat × List Nat) × Option PyErr => q.2) h
      simp at h2

/-- With enough fuel (`idx.length ≤ fuel + limit`, true in particular of
`fuel = idx.length`), a successful trim ends at or below the limit — the
loop cannot stop early. -/
theorem trimLoop_ok_length {limit : Nat} {c : Int} :
    ∀ (fuel : Nat) (idx : List Int) (dat mt : List Nat)
      (t : List Int × List Nat × List Nat),
      idx.length ≤ fuel + limit →
      trimLoop limit c fuel idx dat mt = (t, none) → t.1.length ≤ limit := by
  intro fuel
  induction fuel with
  | zero =>
    intro idx dat mt t hf h
    unfold trimLoop at h
    have h1 := congrArg
      (fun q : (List Int × List Nat × List Nat) × Option PyErr => q.1.1.length) h
    simp only at h1
    omega
  | succ n ih =>
    intro idx dat mt t hf h
    unfold trimLoop at h
    split at h
    · rename_i hguard
      rcases hev : evictFarthest c idx dat mt with ⟨t', e'⟩
      rw [hev] at h
      cases e' with
      | some e =>
        have h2 := congrArg
          (fun q : (List Int × List Nat × List Nat) × Option PyErr => q.2) h
        simp at h2
      | none =>
        have hlen := evictFarthest_ok_length hev
        exact ih t'.1 t'.2.1 t'.2.2 t (by omega) h
    · rename_i hguard
      have h1 := congrArg
        (fun q : (List Int × List Nat × List Nat) × Option PyErr => q.1.1.length) h
      simp only at h1
      omega

theorem pyIdx_nonneg {α : Type} (l : List α) (p : Int) (h0 : 0 ≤ p) :
    pyIdx l p = l.get? p.toNat := by
  unfold pyIdx
  rw [if_neg (by omega)]

/-- Python indexing fails exactly outside `[-len, len)`. -/
theorem pyIdx_none_iff {α : Type} (l : List α) (p : Int) :
    pyIdx l p = none ↔ (p < -(l.length : Int) ∨ (l.length : Int) ≤ p) := by
  unfold pyIdx
  split
  · rename_i hneg
    dsimp only
    split
    · rename_i hj
      simp only [true_iff]
      omega
    · rename_i hj
      rw [List.get?_eq_getElem?, List.getElem?_eq_none_iff]
      constructor
      · intro hle
        omega
      · intro hor
        omega
  · rename_i hnonneg
    rw [List.get?_eq_getElem?, List.getElem?_eq_none_iff]
    constructor
    · intro hle
      omega
    · intro hor
      omega

theorem pyIdx_some_of_lt {α : Type} {l : List α} {p : Int}
    (h0 : 0 ≤ p) (hl : p < (l.length : Int)) :
    ∃ x, pyIdx l p = some x ∧ l.get? p.toNat = some x := by
  rw [pyIdx_nonneg l p h0]
  have hlt : p.toNat < l.length := by omega
  rw [List.get?_eq_getElem?]
  exact ⟨l.get ⟨p.toNat, hlt⟩, by simp [List.getElem?_eq_getElem hlt], by
    simp [List.getElem?_eq_getElem hlt]⟩

/-- `get_data` on a cache hit: only the current position changes. -/
theorem get_data_hit {env : Env} {s : State} {p : Int}
    (hmem : p ∈ s.index) (hsync : s.index.length = s.data.length) :
    get_data env s p =
      ({ s with currentIndex := p }, .ok (s.data.getD (s.index.indexOf p) 0)) := by
  unfold get_data
  dsimp only
  rw [if_pos hmem]
  have hidx : s.index.indexOf p < s.index.length := List.indexOf_lt_length.2 hmem
  have hlt : s.index.indexOf p < s.data.length := by omega
  have hdata : pyIdx s.data ((s.index.indexOf p : Nat) : Int) =
      some (s.data.getD (s.index.indexOf p) 0) := by
    rw [pyIdx_nonneg _ _ (by omega)]
    rw [Int.toNat_ofNat, List.get?_eq_getElem?, List.getElem?_eq_getElem hlt]
    rw [List.getD_eq_getElem?_getD, List.getElem?_eq_getElem hlt]
    rfl
  rw [hdata]

/-- `get_data` on a cache miss with a resolvable filename and a
successful stat: one entry appended. -/
theorem get_data_miss {env : Env} {s : State} {p : Int} {L : List String}
    {fname : String} {m : Nat}
    (hmem : p ∉ s.index) (hL : s.fileList = some L)
    (hf : pyIdx L p = some fname)
    (hmtv : env.mtime (pathJoin s.dataDir fname) = some m) :
    get_data env s p =
      ({ s with currentIndex := p, index := s.index ++ [p],
                data := s.data ++ [env.decode (pathJoin s.dataDir fname)],
                mtimes := s.mtimes ++ [m] },
        .ok (env.decode (pathJoin s.dataDir fname))) := by
  unfold get_data
  dsimp only
  rw [if_neg hmem, hL]
  dsimp only
  rw [hf]
  dsimp only
  rw [hmtv]

/-- Facts available whenever `update_file_list` returns successfully. -/
theorem update_ok_basic {env : Env} {s s₁ : State}
    (h : update_file_list env s = (s₁, .ok ())) :
    s₁.dataDir = s.dataDir ∧
    s₁.fileList = some (computeListing env s.dataDir) ∧
    computeListing env s.dataDir ≠ [] ∧
    s₁.cacheLimit = s.cacheLimit ∧
    s₁.paused = s.paused := by
  unfold update_file_list at h
  dsimp only at h
  split at h
  · rename_i hempty
    injection h with h1 h2
    exact absurd h2 (by simp)
  · rename_i hne
    rcases hfl : s.fileList with _ | oldL
    · rw [hfl] at h
      dsimp only at h
      split at h
      · injection h with h1 h2
        subst h1
        simp [hne]
      · injection h with h1 h2
        exact absurd h2 (by simp)
    · rw [hfl] at h
      dsimp only at h
      split at h
      · rename_i heq
        injection h with h1 h2
        subst h1
        simp [hfl, heq, hne]
      · rcases hcur : pyIdx oldL s.currentIndex with _ | a
        · rw [hcur] at h
          injection h with h1 h2
          exact absurd h2 (by simp)
        · rw [hcur] at h
          dsimp only at h
          rcases hrg : remapGo oldL (computeListing env s.dataDir)
              s.index.length s.index s.data s.mtimes with ⟨t, e⟩
          rw [hrg] at h
          cases e with
          | some e0 =>
            injection h with h1 h2
            exact absurd h2 (by simp)
          | none =>
            injection h with h1 h2
            subst h1
            simp [hne]

/-- A refresh that starts from an empty cache keeps it empty (any
outcome). -/
theorem update_empty_cache {env : Env} {s : State}
    (hi : s.index = []) (hd : s.data = []) (hm : s.mtimes = []) :
    (update_file_list env s).1.index = [] ∧
    (update_file_list env s).1.data = [] ∧
    (update_file_list env s).1.mtimes = [] ∧
    (update_file_list env s).1.cacheLimit = s.cacheLimit := by
  unfold update_file_list
  dsimp only
  split
  · exact ⟨hi, hd, hm, rfl⟩
  · rcases hfl : s.fileList with _ | oldL
    · dsimp only
      split
      · exact ⟨hi, hd, hm, rfl⟩
      · exact ⟨hi, hd, hm, rfl⟩
    · dsimp only
      split
      · exact ⟨hi, hd, hm, rfl⟩
      · rcases hcur : pyIdx oldL s.currentIndex with _ | a
        · exact ⟨hi, hd, hm, rfl⟩
        · dsimp only
          rw [hi, hd, hm]
          dsimp only [remapGo]
          exact ⟨rfl, rfl, rfl, rfl⟩

/-! ## C10 -/

/-- C10: every call to `get_data`, including one that subsequently
fails, first sets `current_index` to the requested position; the
returned state carries `currentIndex = p` no matter which branch
(cache hit, miss, or any raised error) was taken. -/
theorem c10_get_always_sets_current (env : Env) (s : State) (p : Int) :
    ((get_data env s p).1).currentIndex = p := by
  unfold get_data
  dsimp only
  repeat' split <;> try rfl

/-! ## C8 -/

/-- C8 (code bug): during the tick's stale-entry invalidation pass, a
failing stat (`mtime` returns no value) propagates out of the tick as an
OSError — the loop is killed — and the affected entry is NOT dropped:
the state in the raised result still holds position 0.  The spec says
the entry should be dropped as if the file were gone and the loop should
continue. -/
theorem c8_stat_error_kills_tick :
    tick envNoStat 50 sOneCached = .raised sOneCached .osError ∧
    sOneCached.index = [0] := ⟨rfl, rfl⟩

/-! ## C5 -/

/-- C5 (counterexample): with listing `[a, b, c]`, position `-1` is not
in `[0, 3)`, yet `get_data` does not fail with an index error — Python's
negative indexing resolves it to the last file and the call succeeds. -/
theorem c5_counterexample :
    (get_data envABC sFreshABC (-1)).2 = .ok 7 ∧
    sFreshABC.fileList = some ["a", "b", "c"] ∧
    ¬ ((0 : Int) ≤ -1) := ⟨rfl, rfl, by decide⟩

/-- C5 (amended): for an uncached position, `get_data` fails with an
index error exactly when the position lies outside Python's accepted
range `[-len, len)`; in particular it never raises for positions in
`[0, len)`, but it also accepts negative positions down to `-len`
(addressing from the end), and a cached position never raises at all. -/
theorem c5_amended (env : Env) (s : State) (L : List String) (p : Int)
    (hL : s.fileList = some L)
    (hsync : s.index.length = s.data.length)
    (hmt : ∀ path, (env.mtime path).isSome) :
    (get_data env s p).2 = .error .indexError ↔
      p ∉ s.index ∧ (p < -(L.length : Int) ∨ (L.length : Int) ≤ p) := by
  by_cases hmem : p ∈ s.index
  · rw [get_data_hit hmem hsync]
    simp [hmem]
  · rcases hpi : pyIdx L p with _ | fname
    · constructor
      · intro _
        exact ⟨hmem, (pyIdx_none_iff L p).1 hpi⟩
      · intro _
        unfold get_data
        dsimp only
        rw [if_neg hmem, hL]
        dsimp only
        rw [hpi]
    · obtain ⟨m, hmtv⟩ := Option.isSome_iff_exists.1 (hmt (pathJoin s.dataDir fname))
      rw [get_data_miss hmem hL hpi hmtv]
      simp only [reduceCtorEq, false_iff, not_and]
      intro _ hor
      have hnone : pyIdx L p = none := (pyIdx_none_iff L p).2 hor
      rw [hpi] at hnone
      exact Option.noConfusion hnone

theorem c5_amended_witness :
    (get_data envABC sFreshABC (-5)).2 = .error .indexError :=
  (c5_amended envABC sFreshABC ["a", "b", "c"] (-5) rfl rfl (fun _ => rfl)).mpr
    (by decide)

/-! ## C6 -/

/-- C6: for a valid position, `get_data` sets the current position and
returns a payload; on a hit the cache is completely unchanged and the
cached payload is returned; on a miss exactly one entry — the requested
position, the decoded payload, and the file's current modification
time — is appended; and no resident entry is ever removed. -/
theorem c6_get_contract (env : Env) (s : State) (L : List String) (p : Int)
    (hL : s.fileList = some L) (h0 : 0 ≤ p) (hlen : p < (L.length : Int))
    (hsync : s.index.length = s.data.length)
    (hmt : ∀ path, (env.mtime path).isSome) :
    ((get_data env s p).1.currentIndex = p) ∧
    (p ∈ s.index →
       (get_data env s p).1 = { s with currentIndex := p } ∧
       (get_data env s p).2 = .ok (s.data.getD (s.index.indexOf p) 0)) ∧
    (p ∉ s.index →
       ∀ fname, pyIdx L p = some fname →
         (get_data env s p).1.index = s.index ++ [p] ∧
         (get_data env s p).1.data = s.data ++ [env.decode (pathJoin s.dataDir fname)] ∧
         (get_data env s p).1.mtimes =
           s.mtimes ++ [(env.mtime (pathJoin s.dataDir fname)).getD 0] ∧
         (get_data env s p).2 = .ok (env.decode (pathJoin s.dataDir fname))) ∧
    (∀ q, q ∈ s.index → q ∈ (get_data env s p).1.index) := by
  by_cases hmem : p ∈ s.index
  · rw [get_data_hit hmem hsync]
    exact ⟨rfl, fun _ => ⟨rfl, rfl⟩, fun hab => absurd hmem hab, fun q hq => hq⟩
  · obtain ⟨fname, hf, -⟩ := @pyIdx_some_of_lt String L p h0 hlen
    obtain ⟨m, hmtv⟩ := Option.isSome_iff_exists.1 (hmt (pathJoin s.dataDir fname))
    rw [get_data_miss hmem hL hf hmtv]
    refine ⟨rfl, fun hab => absurd hab hmem, ?_, fun q hq => by simp [hq]⟩
    intro hnm fname0 hf0
    rw [hf] at hf0
    have hfn : fname0 = fname := (Option.some.inj hf0).symm
    subst hfn
    exact ⟨rfl, rfl, by simp [hmtv], rfl⟩

theorem c6_witness : ((get_data envABC sFreshABC 1).1.currentIndex = 1) :=
  (c6_get_contract envABC sFreshABC ["a", "b", "c"] 1 rfl (by decide) (by decide)
    rfl (fun _ => rfl)).1

/-! ## C7 -/

/-- C7: a successful `change_data_dir` leaves the cache holding exactly
one entry — the one at the resulting current position — over the new
directory's freshly computed listing: the cache was cleared, the listing
refreshed against the new directory (with the current-position
remapping of `update_file_list`), and the single entry eagerly loaded. -/
theorem c7_change_dir (env : Env) (s : State) (d : String) (s' : State)
    (h : change_data_dir env s d = (s', .ok ())) :
    s'.index = [s'.currentIndex] ∧
    s'.dataDir = d ∧
    s'.fileList = some (computeListing env d) ∧
    (∀ fname, pyIdx (computeListing env d) s'.currentIndex = some fname →
       s'.data = [env.decode (pathJoin d fname)] ∧
       s'.mtimes = [(env.mtime (pathJoin d fname)).getD 0]) := by
  unfold change_data_dir at h
  dsimp only at h
  rcases hup : update_file_list env
      { s with dataDir := d, index := [], data := [], mtimes := [] } with ⟨s₂, r⟩
  rw [hup] at h
  cases r with
  | error e => injection h with h1 h2; exact absurd h2 (by simp)
  | ok u =>
    cases u
    dsimp only at h
    obtain ⟨hdir, hfl, hne, -, -⟩ := update_ok_basic hup
    have hempty := @update_empty_cache env
      { s with dataDir := d, index := [], data := [], mtimes := [] }
      rfl rfl rfl
    rw [hup] at hempty
    obtain ⟨hi2, hd2, hm2, -⟩ := hempty
    rcases hfl2 : s₂.fileList with _ | L
    · rw [hfl2] at h; injection h with h1 h2; exact absurd h2 (by simp)
    · rw [hfl2] at h
      dsimp only at h
      rcases hpi : pyIdx L s₂.currentIndex with _ | fname
      · rw [hpi] at h; injection h with h1 h2; exact absurd h2 (by simp)
      · rw [hpi] at h
        dsimp only at h
        rcases hmt : env.mtime (pathJoin s₂.dataDir fname) with _ | m
        · rw [hmt] at h; injection h with h1 h2; exact absurd h2 (by simp)
        · rw [hmt] at h
          injection h with h1 h2
          subst h1
          dsimp only at hdir hfl hne hi2 hd2 hm2
          have hL : L = computeListing env d := by
            rw [hfl2] at hfl
            exact Option.some.inj hfl
          subst hL
          refine ⟨by simp [hi2], by simpa using hdir, by simpa using hfl2, ?_⟩
          intro fname0 hf0
          simp only [State.currentIndex] at hf0
          rw [hpi] at hf0
          have hfn : fname0 = fname := (Option.some.inj hf0).symm
          subst hfn
          rw [hdir] at hmt
          constructor
          · simp [hd2, hdir]
          · simp [hm2, hdir, hmt]

theorem c7_witness : sSwitched.index = [sSwitched.currentIndex] :=
  (c7_change_dir envAB sFreshABC "e" sSwitched rfl).1

/-! ## C9 -/

/-- C9: a listing refresh that computes a listing identical to the
current one returns early and changes nothing at all (current position
and every cache entry included); consequently a second refresh in the
same environment right after a successful one is a no-op. -/
theorem c9_refresh_idempotent :
    (∀ (env : Env) (s : State) (L : List String),
        s.fileList = some L → L ≠ [] → computeListing env s.dataDir = L →
        update_file_list env s = (s, .ok ())) ∧
    (∀ (env : Env) (s s₁ : State),
        update_file_list env s = (s₁, .ok ()) →
        update_file_list env s₁ = (s₁, .ok ())) := by
  constructor
  · intro env s L hfl hne hcl
    unfold update_file_list
    dsimp only
    rw [hcl, hfl]
    simp [hne]
  · intro env s s₁ h
    obtain ⟨hdir, hfl, hne, -, -⟩ := update_ok_basic h
    unfold update_file_list
    dsimp only
    rw [hdir, hfl]
    simp [hne]

theorem c9_witness : update_file_list envABC sFreshABC = (sFreshABC, .ok ()) :=
  c9_refresh_idempotent.1 envABC sFreshABC ["a", "b", "c"] rfl (by decide) rfl

/-! ## C2 -/

/-- C2 (counterexample): with `cache_limit = 1` and listing `[a, b]`,
two foreground `get` calls leave two resident entries; every subsequent
tick completes by the everything-cached early exit without evicting, so
the excess persists across arbitrarily many consecutive completed ticks
(the tick returns the very same state). -/
theorem c2_counterexample :
    sOverfull.cacheLimit = 1 ∧
    sOverfull.index.length = 2 ∧
    tick envAB 50 sOverfull = .done sOverfull .allCached := ⟨rfl, rfl, rfl⟩


/-! ## C2 (continued) and supporting tick lemmas -/

theorem loadPhase_done {env : Env} {s : State} {l : List String} {li : Int} {b : Bool}
    {s' : State} {out : TickOutcome}
    (h : loadPhase env s l li b = .done s' out) :
    s'.index.length = s.index.length + 1 ∧ s'.cacheLimit = s.cacheLimit ∧
    out = .loaded b := by
  unfold loadPhase at h
  rcases hpi : pyIdx l li with _ | fname
  · rw [hpi] at h; exact TickResult.noConfusion h
  · rw [hpi] at h
    dsimp only at h
    rcases hmt : env.mtime (pathJoin s.dataDir fname) with _ | m
    · rw [hmt] at h; exact TickResult.noConfusion h
    · rw [hmt] at h
      injection h with h1 h2
      subst h1
      subst h2
      simp

theorem evictAndLoad_done_length {env : Env} {s : State} {l : List String}
    {li : Int} {b : Bool} {s' : State} {out : TickOutcome}
    (h : evictAndLoad env s l li b = .done s' out) :
    s'.index.length ≤ s.cacheLimit ∧ s'.cacheLimit = s.cacheLimit := by
  unfold evictAndLoad at h
  rcases htr : trimLoop s.cacheLimit s.currentIndex s.index.length s.index s.data s.mtimes
    with ⟨t, e⟩
  rw [htr] at h
  cases e with
  | some e0 => exact TickResult.noConfusion h
  | none =>
    have hlen : t.1.length ≤ s.cacheLimit :=
      trimLoop_ok_length s.index.length s.index s.data s.mtimes t (by omega) htr
    dsimp only at h
    split at h
    · rename_i hfull
      rcases hmax : (t.1.map (fun i => (i - s.currentIndex).natAbs)).max? with _ | maxD
      · rw [hmax] at h
        exact TickResult.noConfusion h
      · rw [hmax] at h
        dsimp only at h
        split at h
        · injection h with h1 h2
          subst h1
          dsimp only at hfull ⊢
          omega
        · rcases hev : evictFarthest s.currentIndex t.1 t.2.1 t.2.2 with ⟨t2, e2⟩
          rw [hev] at h
          cases e2 with
          | some e3 => exact TickResult.noConfusion h
          | none =>
            have hlen2 := evictFarthest_ok_length hev
            obtain ⟨hl1, hl2, -⟩ := loadPhase_done h
            simp only at hl1 hl2 hfull
            omega
    · rename_i hnot
      obtain ⟨hl1, hl2, -⟩ := loadPhase_done h
      simp only at hl1 hl2 hnot
      omega

theorem tick_done_shape {env : Env} {fuel : Nat} {s s' : State} {out : TickOutcome}
    (h : tick env fuel s = .done s' out) :
    out = .paused ∨ out = .allCached ∨ out = .abandoned ∨
    ∃ s₂ l li b, evictAndLoad env s₂ l li b = .done s' out ∧
      s₂.cacheLimit = s.cacheLimit := by
  unfold tick at h
  split at h
  · injection h with h1 h2
    exact Or.inl h2.symm
  · rcases hinv : invalidateGo env s.dataDir s.fileList s.index.length s.index s.data s.mtimes
      with ⟨t, e⟩
    rw [hinv] at h
    cases e with
    | some e0 => exact TickResult.noConfusion h
    | none =>
      dsimp only at h
      rcases hup : update_file_list env
          { s with index := t.1, data := t.2.1, mtimes := t.2.2 } with ⟨s₂, r⟩
      rw [hup] at h
      cases r with
      | error e1 => exact TickResult.noConfusion h
      | ok u =>
        cases u
        dsimp only at h
        rcases hfl : s₂.fileList with _ | l
        · rw [hfl] at h
          exact TickResult.noConfusion h
        · rw [hfl] at h
          dsimp only at h
          split at h
          · injection h with h1 h2
            exact Or.inr (Or.inl h2.symm)
          · rcases hsl : searchLoop
                (fun x => decide (x ∈ s₂.index) || decide (x < 0) ||
                  decide ((l.length : Int) ≤ x))
                s₂.currentIndex s₂.cacheLimit fuel (s.currentIndex + 1)
              with _ | ⟨li, b⟩
            · rw [hsl] at h
              exact TickResult.noConfusion h
            · rw [hsl] at h
              dsimp only at h
              split at h
              · injection h with h1 h2
                exact Or.inr (Or.inr (Or.inl h2.symm))
              · refine Or.inr (Or.inr (Or.inr ⟨s₂, l, li, b, h, ?_⟩))
                have := (update_ok_basic hup).2.2.2.1
                simpa using this

/-- C2 (amended): a completed tick that reaches the eviction/load phase
(outcome `rejected` or `loaded`) always ends with at most `cache_limit`
resident entries.  Ticks that exit early (`paused`, `allCached`,
`abandoned`) do not evict, so — as the counterexample shows — an excess
created by foreground `get` calls can persist across arbitrarily many
consecutive completed ticks, contrary to the original claim. -/
theorem c2_amended (env : Env) (fuel : Nat) (s s' : State) (out : TickOutcome)
    (h : tick env fuel s = .done s' out)
    (hout : out = .rejected ∨ ∃ b, out = .loaded b) :
    s'.index.length ≤ s'.cacheLimit := by
  rcases tick_done_shape h with h1 | h1 | h1 | ⟨s₂, l, li, b, he, hcl⟩
  · rcases hout with h2 | ⟨b, h2⟩ <;> (rw [h1] at h2; exact TickOutcome.noConfusion h2)
  · rcases hout with h2 | ⟨b, h2⟩ <;> (rw [h1] at h2; exact TickOutcome.noConfusion h2)
  · rcases hout with h2 | ⟨b, h2⟩ <;> (rw [h1] at h2; exact TickOutcome.noConfusion h2)
  · obtain ⟨ha, hb⟩ := evictAndLoad_done_length he
    omega

theorem c2_amended_witness : sTicked.index.length ≤ sTicked.cacheLimit :=
  c2_amended envAB 50 sFreshAB sTicked (.loaded false) rfl (Or.inr ⟨false, rfl⟩)

/-! ## C4 -/

theorem searchLoop_fixpoint (cond : Int → Bool) (c : Int) (limit : Nat)
    (hc : cond c = true) : ∀ fuel, searchLoop cond c limit fuel c = none := by
  intro fuel
  induction fuel with
  | zero => rfl
  | succ n ih =>
    unfold searchLoop
    rw [hc, if_pos rfl]
    dsimp only
    have h2 : 2 * c - c + (if c < c then 1 else 0) = c := by
      rw [if_neg (lt_irrefl c)]
      ring
    rw [h2]
    have hno : ¬ limit < (c - c).natAbs := by omega
    rw [if_neg hno]
    exact ih

theorem searchLoop_progress (cond : Int → Bool) (c : Int) (limit : Nat) :
    ∀ (k d : Nat), 1 ≤ d → limit ≤ d + k →
      (∀ fuel, 2 * k + 1 ≤ fuel → searchLoop cond c limit fuel (c - (d : Int)) ≠ none) ∧
      (∀ fuel, 2 * k + 2 ≤ fuel → searchLoop cond c limit fuel (c + (d : Int)) ≠ none) := by
  intro k
  induction k with
  | zero =>
    intro d hd hlim
    have hdown : ∀ fuel, 2 * 0 + 1 ≤ fuel →
        searchLoop cond c limit fuel (c - (d : Int)) ≠ none := by
      intro fuel hf
      cases fuel with
      | zero => omega
      | succ n =>
        unfold searchLoop
        cases hcond : cond (c - (d : Int)) with
        | false => simp
        | true =>
          rw [if_pos rfl]
          dsimp only
          have h2 : 2 * c - (c - (d : Int)) + (if c - (d : Int) < c then 1 else 0) =
              c + ((d + 1 : Nat) : Int) := by
            rw [if_pos (by omega)]
            push_cast
            ring
          rw [h2]
          rw [if_pos (by omega)]
          simp
    refine ⟨hdown, ?_⟩
    intro fuel hf
    cases fuel with
    | zero => omega
    | succ n =>
      unfold searchLoop
      cases hcond : cond (c + (d : Int)) with
      | false => simp
      | true =>
        rw [if_pos rfl]
        dsimp only
        have h2 : 2 * c - (c + (d : Int)) + (if c + (d : Int) < c then 1 else 0) =
            c - (d : Int) := by
          rw [if_neg (by omega)]
          ring
        rw [h2]
        by_cases hbr : limit < (c - (d : Int) - c).natAbs
        · rw [if_pos hbr]
          simp
        · rw [if_neg hbr]
          exact hdown n (by omega)
  | succ k ih =>
    intro d hd hlim
    have hdown : ∀ fuel, 2 * (k + 1) + 1 ≤ fuel →
        searchLoop cond c limit fuel (c - (d : Int)) ≠ none := by
      intro fuel hf
      cases fuel with
      | zero => omega
      | succ n =>
        unfold searchLoop
        cases hcond : cond (c - (d : Int)) with
        | false => simp
        | true =>
          rw [if_pos rfl]
          dsimp only
          have h2 : 2 * c - (c - (d : Int)) + (if c - (d : Int) < c then 1 else 0) =
              c + ((d + 1 : Nat) : Int) := by
            rw [if_pos (by omega)]
            push_cast
            ring
          rw [h2]
          by_cases hbr : limit < (c + ((d + 1 : Nat) : Int) - c).natAbs
          · rw [if_pos hbr]
            simp
          · rw [if_neg hbr]
            exact (ih (d + 1) (by omega) (by omega)).2 n (by omega)
    refine ⟨hdown, ?_⟩
    intro fuel hf
    cases fuel with
    | zero => omega
    | succ n =>
      unfold searchLoop
      cases hcond : cond (c + (d : Int)) with
      | false => simp
      | true =>
        rw [if_pos rfl]
        dsimp only
        have h2 : 2 * c - (c + (d : Int)) + (if c + (d : Int) < c then 1 else 0) =
            c - (d : Int) := by
          rw [if_neg (by omega)]
          ring
        rw [h2]
        by_cases hbr : limit < (c - (d : Int) - c).natAbs
        · rw [if_pos hbr]
          simp
        · rw [if_neg hbr]
          exact hdown n (by omega)

theorem invalidateGo_length_le (env : Env) (dir : String) (fl : Option (List String)) :
    ∀ (k : Nat) (idx : List Int) (dat mt : List Nat),
      (invalidateGo env dir fl k idx dat mt).1.1.length ≤ idx.length := by
  intro k
  induction k with
  | zero => intro idx dat mt; exact le_refl _
  | succ n ih =>
    intro idx dat mt
    unfold invalidateGo
    repeat' split
    all_goals first
      | exact le_refl _
      | exact le_trans (ih _ _ _) (List.length_eraseIdx_le idx n)
      | exact List.length_eraseIdx_le idx n
      | exact ih idx dat mt

theorem remapGo_length_le (oldL newL : List String) :
    ∀ (k : Nat) (idx : List Int) (dat mt : List Nat),
      (remapGo oldL newL k idx dat mt).1.1.length ≤ idx.length := by
  intro k
  induction k with
  | zero => intro idx dat mt; exact le_refl _
  | succ n ih =>
    intro idx dat mt
    unfold remapGo
    repeat' split
    all_goals first
      | exact le_refl _
      | exact le_trans (ih _ _ _) (le_of_eq (List.length_set idx n _))
      | exact le_trans (ih _ _ _) (List.length_eraseIdx_le idx n)
      | exact List.length_eraseIdx_le idx n

theorem update_index_length_le (env : Env) (s : State) :
    (update_file_list env s).1.index.length ≤ s.index.length := by
  unfold update_file_list
  dsimp only
  split
  · exact le_refl _
  · rcases hfl : s.fileList with _ | oldL
    · dsimp only
      split
      · exact le_refl _
      · exact le_refl _
    · dsimp only
      split
      · exact le_refl _
      · rcases hcur : pyIdx oldL s.currentIndex with _ | a
        · exact le_refl _
        · dsimp only
          rcases hrg : remapGo oldL (computeListing env s.dataDir)
              s.index.length s.index s.data s.mtimes with ⟨t, e⟩
          have hle := remapGo_length_le oldL (computeListing env s.dataDir)
            s.index.length s.index s.data s.mtimes
          rw [hrg] at hle
          cases e with
          | some e0 => exact hle
          | none => exact hle

theorem evictAndLoad_done_outcome {env : Env} {s : State} {l : List String}
    {li : Int} {b : Bool} {s' : State} {out : TickOutcome}
    (h : evictAndLoad env s l li b = .done s' out) :
    out = .rejected ∨ out = .loaded b := by
  unfold evictAndLoad at h
  rcases htr : trimLoop s.cacheLimit s.currentIndex s.index.length s.index s.data s.mtimes
    with ⟨t, e⟩
  rw [htr] at h
  cases e with
  | some e0 => exact TickResult.noConfusion h
  | none =>
    dsimp only at h
    split at h
    · rcases hmax : (t.1.map (fun i => (i - s.currentIndex).natAbs)).max? with _ | maxD
      · rw [hmax] at h
        exact TickResult.noConfusion h
      · rw [hmax] at h
        dsimp only at h
        split at h
        · injection h with h1 h2
          exact Or.inl h2.symm
        · rcases hev : evictFarthest s.currentIndex t.1 t.2.1 t.2.2 with ⟨t2, e2⟩
          rw [hev] at h
          cases e2 with
          | some e3 => exact TickResult.noConfusion h
          | none => exact Or.inr (loadPhase_done h).2.2
    · exact Or.inr (loadPhase_done h).2.2

theorem tick_abandoned_no_load {env : Env} {fuel : Nat} {s s' : State}
    (h : tick env fuel s = .done s' .abandoned) :
    s'.index.length ≤ s.index.length := by
  unfold tick at h
  split at h
  · injection h with h1 h2
    exact TickOutcome.noConfusion h2
  · rcases hinv : invalidateGo env s.dataDir s.fileList s.index.length s.index s.data s.mtimes
      with ⟨t, e⟩
    rw [hinv] at h
    cases e with
    | some e0 => exact TickResult.noConfusion h
    | none =>
      dsimp only at h
      have hlen1 : t.1.length ≤ s.index.length := by
        have := invalidateGo_length_le env s.dataDir s.fileList
          s.index.length s.index s.data s.mtimes
        rw [hinv] at this
        exact this
      rcases hup : update_file_list env
          { s with index := t.1, data := t.2.1, mtimes := t.2.2 } with ⟨s₂, r⟩
      rw [hup] at h
      cases r with
      | error e1 => exact TickResult.noConfusion h
      | ok u =>
        cases u
        dsimp only at h
        have hlen2 : s₂.index.length ≤ t.1.length := by
          have := update_index_length_le env
            { s with index := t.1, data := t.2.1, mtimes := t.2.2 }
          rw [hup] at this
          exact this
        rcases hfl : s₂.fileList with _ | l
        · rw [hfl] at h
          exact TickResult.noConfusion h
        · rw [hfl] at h
          dsimp only at h
          split at h
          · injection h with h1 h2
            exact TickOutcome.noConfusion h2
          · rcases hsl : searchLoop
                (fun x => decide (x ∈ s₂.index) || decide (x < 0) ||
                  decide ((l.length : Int) ≤ x))
                s₂.currentIndex s₂.cacheLimit fuel (s.currentIndex + 1)
              with _ | ⟨li, b⟩
            · rw [hsl] at h
              exact TickResult.noConfusion h
            · rw [hsl] at h
              dsimp only at h
              split at h
              · injection h with h1 h2
                subst h1
                omega
              · rcases evictAndLoad_done_outcome h with h2 | h2 <;>
                  exact TickOutcome.noConfusion h2

/-- C4 (counterexample): both halves of the claim fail.
(1) Non-termination: from the reachable state `sDivStart` (listing
`[b, c]`, position 0 = `b` resident and current), a tick whose refresh
finds `[a, b, c]` moves both the entry and the current position to 1,
but the search started from the stale `0 + 1 = 1`; reflecting 1 about 1
yields 1 again and the distance 0 never exceeds the limit, so the
search `while` loop spins forever — `tick` diverges for every fuel.
(2) Abandoned-but-loaded: the tick from `sDupStart` against `envSeven`
breaks out of the search with candidate 2 at distance 4 > cache_limit 2
(outcome `.loaded true`), yet still decodes and inserts it. -/
theorem c4_counterexample :
    tickDiverges envABC sDivStart ∧
    sDivStart.index = [0] ∧ sDivStart.currentIndex = 0 ∧ sDivStart.cacheLimit = 1 ∧
    tick envSeven 50 sDupStart = .done sDupEnd (.loaded true) ∧
    sDupEnd.cacheLimit < ((2 : Int) - sDupEnd.currentIndex).natAbs := by
  refine ⟨?_, rfl, rfl, rfl, rfl, by decide⟩
  intro fuel
  have h1 : tick envABC fuel sDivStart =
      (match searchLoop
          (fun x => decide (x ∈ sDivMid.index) || decide (x < 0) ||
            decide ((3 : Int) ≤ x)) 1 1 fuel 1 with
       | none => TickResult.diverged
       | some (li, b) =>
         if li < 0 ∨ (3 : Int) ≤ li then TickResult.done sDivMid .abandoned
         else evictAndLoad envABC sDivMid ["a", "b", "c"] li b) := rfl
  rw [h1, searchLoop_fixpoint _ 1 1 (by decide) fuel]

/-- C4 (amended): the mirrored search starting at `CurrentPosition + 1`
relative to the same position it reflects about always terminates,
within `2*cache_limit + 2` iterations, whatever is cached (it can spin
forever only when the refresh moved CurrentPosition onto the
pre-computed start, as in the counterexample); and a tick abandoned
with an out-of-range candidate (outcome `abandoned`) inserts no entry.
An abandoned in-range candidate may still be loaded. -/
theorem c4_amended :
    (∀ (cond : Int → Bool) (c : Int) (limit fuel : Nat),
        2 * limit + 2 ≤ fuel → searchLoop cond c limit fuel (c + 1) ≠ none) ∧
    (∀ (env : Env) (fuel : Nat) (s s' : State),
        tick env fuel s = .done s' .abandoned →
        s'.index.length ≤ s.index.length) := by
  constructor
  · intro cond c limit fuel hf
    have h := (searchLoop_progress cond c limit limit 1 (by omega) (by omega)).2 fuel
      (by omega)
    simpa using h
  · intro env fuel s s' h
    exact tick_abandoned_no_load h

theorem c4_amended_witness :
    searchLoop (fun _ => true) 0 0 2 1 ≠ none ∧
    sAbandonStart.index.length ≤ sAbandonStart.index.length := by
  constructor
  · exact c4_amended.1 (fun _ => true) 0 0 2 (by omega)
  · exact c4_amended.2 envA 50 sAbandonStart sAbandonStart rfl


/-! ## C1 -/

theorem set_append_cons {α : Type} (l : List α) (x y : α) (t : List α) :
    (l ++ x :: t).set l.length y = l ++ y :: t := by
  induction l with
  | nil => rfl
  | cons a l ih => simp [List.set, ih]

theorem eraseIdx_append_cons {α : Type} (l : List α) (x : α) (t : List α) :
    (l ++ x :: t).eraseIdx l.length = l ++ t := by
  induction l with
  | nil => rfl
  | cons a l ih => simp [List.eraseIdx, ih]

theorem pyIdx_append_cons {α : Type} (l : List α) (x : α) (t : List α) :
    pyIdx (l ++ x :: t) (l.length : Int) = some x := by
  rw [pyIdx_nonneg _ _ (by omega)]
  rw [List.get?_eq_getElem?]
  simp only [Int.toNat_ofNat]
  rw [List.getElem?_append_right (le_refl l.length)]
  simp

theorem remapGo_spec (oldL newL : List String) :
    ∀ (es : List (Int × Nat × Nat)) (tI : List Int) (tD tM : List Nat),
      (∀ e ∈ es, 0 ≤ e.1 ∧ e.1 < (oldL.length : Int)) →
      remapGo oldL newL es.length
          (es.map (fun e => e.1) ++ tI) (es.map (fun e => e.2.1) ++ tD)
          (es.map (fun e => e.2.2) ++ tM) =
        (((es.filterMap (specRemapEntry oldL newL)).map (fun e => e.1) ++ tI,
          (es.filterMap (specRemapEntry oldL newL)).map (fun e => e.2.1) ++ tD,
          (es.filterMap (specRemapEntry oldL newL)).map (fun e => e.2.2) ++ tM),
         none) := by
  intro es
  induction es using List.reverseRecOn with
  | nil => intro tI tD tM hb; rfl
  | append_singleton es' e ih =>
    intro tI tD tM hb
    have hb1 : 0 ≤ e.1 ∧ e.1 < (oldL.length : Int) := hb e (by simp)
    have hb2 : ∀ e2 ∈ es', 0 ≤ e2.1 ∧ e2.1 < (oldL.length : Int) :=
      fun e2 he2 => hb e2 (by simp [he2])
    have hlen : (es' ++ [e]).length = es'.length + 1 := by simp
    have hmapI : (es' ++ [e]).map (fun e => e.1) ++ tI =
        es'.map (fun e => e.1) ++ (e.1 :: tI) := by simp
    have hmapD : (es' ++ [e]).map (fun e => e.2.1) ++ tD =
        es'.map (fun e => e.2.1) ++ (e.2.1 :: tD) := by simp
    have hmapM : (es' ++ [e]).map (fun e => e.2.2) ++ tM =
        es'.map (fun e => e.2.2) ++ (e.2.2 :: tM) := by simp
    rw [hlen, hmapI, hmapD, hmapM]
    unfold remapGo
    have hlenI : (es'.map (fun e => e.1)).length = es'.length := by simp
    have hpy : pyIdx (es'.map (fun e => e.1) ++ (e.1 :: tI)) ((es'.length : Nat) : Int) =
        some e.1 := by
      rw [← hlenI]
      exact pyIdx_append_cons _ e.1 tI
    rw [hpy]
    dsimp only
    obtain ⟨fname, hfn, -⟩ := @pyIdx_some_of_lt String oldL e.1 hb1.1 hb1.2
    rw [hfn]
    dsimp only
    by_cases hmem : fname ∈ newL
    · rw [if_pos hmem]
      have hset : (es'.map (fun e => e.1) ++ (e.1 :: tI)).set es'.length
          ((newL.indexOf fname : Nat) : Int) =
          es'.map (fun e => e.1) ++ (((newL.indexOf fname : Nat) : Int) :: tI) := by
        rw [← hlenI]
        exact set_append_cons _ e.1 _ tI
      rw [hset]
      rw [ih (((newL.indexOf fname : Nat) : Int) :: tI) (e.2.1 :: tD) (e.2.2 :: tM) hb2]
      have hspec : specRemapEntry oldL newL e =
          some (((newL.indexOf fname : Nat) : Int), e.2.1, e.2.2) := by
        unfold specRemapEntry
        rw [hfn]
        dsimp only
        rw [if_pos hmem]
      simp [List.filterMap_append, hspec]
    · rw [if_neg hmem]
      have hc : es'.length < (es'.map (fun e => e.2.1) ++ (e.2.1 :: tD)).length ∧
          es'.length < (es'.map (fun e => e.2.2) ++ (e.2.2 :: tM)).length := by
        constructor <;> simp
      rw [if_pos hc]
      have he1 : (es'.map (fun e => e.1) ++ (e.1 :: tI)).eraseIdx es'.length =
          es'.map (fun e => e.1) ++ tI := by
        rw [← hlenI]; exact eraseIdx_append_cons _ _ _
      have he2 : (es'.map (fun e => e.2.1) ++ (e.2.1 :: tD)).eraseIdx es'.length =
          es'.map (fun e => e.2.1) ++ tD := by
        have : (es'.map (fun e => e.2.1)).length = es'.length := by simp
        rw [← this]; exact eraseIdx_append_cons _ _ _
      have he3 : (es'.map (fun e => e.2.2) ++ (e.2.2 :: tM)).eraseIdx es'.length =
          es'.map (fun e => e.2.2) ++ tM := by
        have : (es'.map (fun e => e.2.2)).length = es'.length := by simp
        rw [← this]; exact eraseIdx_append_cons _ _ _
      rw [he1, he2, he3]
      rw [ih tI tD tM hb2]
      have hspec : specRemapEntry oldL newL e = none := by
        unfold specRemapEntry
        rw [hfn]
        dsimp only
        rw [if_neg hmem]
      simp [List.filterMap_append, hspec]

/-- C1: successful reconciliation after a listing refresh.  With a
previous listing that differs from the new one, the anchor is the
filename at the previous current position and the new current position
is its new index when it survives and `len(new) - 1` otherwise; and the
cache is transformed entrywise by the reconciliation rule
`specRemapEntry` (drop entries whose filename — resolved via the old
listing — is gone; rewrite surviving positions to the new index).  With
no previous listing the anchor is the last filename of the new listing
and the (empty) cache is untouched. -/
theorem c1_reconciliation (env : Env) (s : State) (newL : List String) (s' : State)
    (hnew : computeListing env s.dataDir = newL)
    (hnempty : newL ≠ [])
    (h : update_file_list env s = (s', .ok ())) :
    (∀ oldL, s.fileList = some oldL → oldL ≠ newL →
       (∀ p ∈ s.index, 0 ≤ p ∧ p < (oldL.length : Int)) →
       s.index.length = s.data.length → s.index.length = s.mtimes.length →
       (∀ a, pyIdx oldL s.currentIndex = some a →
          s'.currentIndex =
            (if a ∈ newL then ((newL.indexOf a : Nat) : Int)
             else (newL.length : Int) - 1)) ∧
       s'.index = ((s.index.zip (s.data.zip s.mtimes)).filterMap
           (specRemapEntry oldL newL)).map (fun e => e.1) ∧
       s'.data = ((s.index.zip (s.data.zip s.mtimes)).filterMap
           (specRemapEntry oldL newL)).map (fun e => e.2.1) ∧
       s'.mtimes = ((s.index.zip (s.data.zip s.mtimes)).filterMap
           (specRemapEntry oldL newL)).map (fun e => e.2.2) ∧
       s'.fileList = some newL) ∧
    (s.fileList = none →
       s'.index = s.index ∧
       s'.currentIndex = ((newL.indexOf (newL.getLast?.getD "") : Nat) : Int) ∧
       s'.fileList = some newL) := by
  constructor
  · intro oldL hfl hne hbounds hsync1 hsync2
    unfold update_file_list at h
    dsimp only at h
    rw [hnew] at h
    rw [if_neg hnempty] at h
    rw [hfl] at h
    dsimp only at h
    rw [if_neg hne] at h
    rcases hcur : pyIdx oldL s.currentIndex with _ | a0
    · rw [hcur] at h
      injection h with h1 h2
      exact absurd h2 (by simp)
    · rw [hcur] at h
      dsimp only at h
      have heslen : (s.index.zip (s.data.zip s.mtimes)).length = s.index.length := by
        simp [List.length_zip]
        omega
      have hes1 : (s.index.zip (s.data.zip s.mtimes)).map (fun e => e.1) = s.index := by
        have := List.map_fst_zip s.index (s.data.zip s.mtimes)
          (by simp [List.length_zip]; omega)
        exact this
      have hsnd : (s.index.zip (s.data.zip s.mtimes)).map Prod.snd =
          s.data.zip s.mtimes := by
        exact List.map_snd_zip s.index (s.data.zip s.mtimes)
          (by simp [List.length_zip]; omega)
      have hes2 : (s.index.zip (s.data.zip s.mtimes)).map (fun e => e.2.1) = s.data := by
        have h1 : (s.index.zip (s.data.zip s.mtimes)).map (fun e => e.2.1) =
            ((s.index.zip (s.data.zip s.mtimes)).map Prod.snd).map Prod.fst := by
          rw [List.map_map]
          rfl
        rw [h1, hsnd]
        exact List.map_fst_zip s.data s.mtimes (by omega)
      have hes3 : (s.index.zip (s.data.zip s.mtimes)).map (fun e => e.2.2) = s.mtimes := by
        have h1 : (s.index.zip (s.data.zip s.mtimes)).map (fun e => e.2.2) =
            ((s.index.zip (s.data.zip s.mtimes)).map Prod.snd).map Prod.snd := by
          rw [List.map_map]
          rfl
        rw [h1, hsnd]
        exact List.map_snd_zip s.data s.mtimes (by omega)
      have hbes : ∀ e ∈ s.index.zip (s.data.zip s.mtimes),
          0 ≤ e.1 ∧ e.1 < (oldL.length : Int) := by
        intro e he
        rcases e with ⟨p, dm⟩
        exact hbounds p (List.of_mem_zip he).1
      have hrg : remapGo oldL newL s.index.length s.index s.data s.mtimes =
          ((((s.index.zip (s.data.zip s.mtimes)).filterMap
              (specRemapEntry oldL newL)).map (fun e => e.1),
            ((s.index.zip (s.data.zip s.mtimes)).filterMap
              (specRemapEntry oldL newL)).map (fun e => e.2.1),
            ((s.index.zip (s.data.zip s.mtimes)).filterMap
              (specRemapEntry oldL newL)).map (fun e => e.2.2)),
           none) := by
        have hs := remapGo_spec oldL newL (s.index.zip (s.data.zip s.mtimes)) [] [] [] hbes
        simp only [List.append_nil] at hs
        rw [heslen, hes1, hes2, hes3] at hs
        exact hs
      rw [hrg] at h
      dsimp only at h
      injection h with h1 h2
      subst h1
      refine ⟨?_, rfl, rfl, rfl, rfl⟩
      intro a ha
      have haa : a0 = a := Option.some.inj ha
      subst haa
      rfl
  · intro hfl
    unfold update_file_list at h
    dsimp only at h
    rw [hnew] at h
    rw [if_neg hnempty] at h
    rw [hfl] at h
    dsimp only at h
    split at h
    · injection h with h1 h2
      subst h1
      refine ⟨rfl, ?_, rfl⟩
      have hmem : (newL.getLast?.getD "") ∈ newL := by
        rw [List.getLast?_eq_getLast newL hnempty]
        exact List.getLast_mem hnempty
      dsimp only
      rw [if_pos hmem]
    · injection h with h1 h2
      exact absurd h2 (by simp)

theorem c1_reconciliation_witness :
    sRecon2.currentIndex = 1 ∧ sRecon2.index = [0, 1] ∧
    sRecon2.data = [7, 8] ∧ sRecon2.mtimes = [5, 6] := by
  have h := (c1_reconciliation envACD sRecon ["a", "c", "d"] sRecon2 rfl (by decide) rfl).1
    ["a", "b", "c"] rfl (by decide) (by decide) rfl rfl
  refine ⟨?_, ?_, ?_, ?_⟩
  · rw [h.1 "c" rfl]
    decide
  · rw [h.2.1]
    decide
  · rw [h.2.2.1]
    decide
  · rw [h.2.2.2.1]
    decide


/-! ## C3 -/

/-- Closed form of the reconciliation loop on well-formed inputs. -/
theorem remapGo_closed (oldL newL : List String) (idx : List Int) (dat mt : List Nat)
    (hsync1 : idx.length = dat.length) (hsync2 : idx.length = mt.length)
    (hbounds : ∀ p ∈ idx, 0 ≤ p ∧ p < (oldL.length : Int)) :
    remapGo oldL newL idx.length idx dat mt =
      ((((idx.zip (dat.zip mt)).filterMap (specRemapEntry oldL newL)).map (fun e => e.1),
        ((idx.zip (dat.zip mt)).filterMap (specRemapEntry oldL newL)).map (fun e => e.2.1),
        ((idx.zip (dat.zip mt)).filterMap (specRemapEntry oldL newL)).map (fun e => e.2.2)),
       none) := by
  have heslen : (idx.zip (dat.zip mt)).length = idx.length := by
    simp [List.length_zip]
    omega
  have hes1 : (idx.zip (dat.zip mt)).map (fun e => e.1) = idx :=
    List.map_fst_zip idx (dat.zip mt) (by simp [List.length_zip]; omega)
  have hsnd : (idx.zip (dat.zip mt)).map Prod.snd = dat.zip mt :=
    List.map_snd_zip idx (dat.zip mt) (by simp [List.length_zip]; omega)
  have hes2 : (idx.zip (dat.zip mt)).map (fun e => e.2.1) = dat := by
    have h1 : (idx.zip (dat.zip mt)).map (fun e => e.2.1) =
        ((idx.zip (dat.zip mt)).map Prod.snd).map Prod.fst := by
      rw [List.map_map]
      rfl
    rw [h1, hsnd]
    exact List.map_fst_zip dat mt (by omega)
  have hes3 : (idx.zip (dat.zip mt)).map (fun e => e.2.2) = mt := by
    have h1 : (idx.zip (dat.zip mt)).map (fun e => e.2.2) =
        ((idx.zip (dat.zip mt)).map Prod.snd).map Prod.snd := by
      rw [List.map_map]
      rfl
    rw [h1, hsnd]
    exact List.map_snd_zip dat mt (by omega)
  have hbes : ∀ e ∈ idx.zip (dat.zip mt), 0 ≤ e.1 ∧ e.1 < (oldL.length : Int) := by
    intro e he
    rcases e with ⟨p, dm⟩
    exact hbounds p (List.of_mem_zip he).1
  have hs := remapGo_spec oldL newL (idx.zip (dat.zip mt)) [] [] [] hbes
  simp only [List.append_nil] at hs
  rw [heslen, hes1, hes2, hes3] at hs
  exact hs

/-- The position invariant survives a listing refresh (any outcome). -/
theorem posInv_update (env : Env) (s : State) (hinv : PosInv s) :
    PosInv (update_file_list env s).1 := by
  obtain ⟨L, hfl, hne, hbound, hc0, hc1, hs1, hs2⟩ := hinv
  unfold update_file_list
  dsimp only
  split
  · exact ⟨L, hfl, hne, hbound, hc0, hc1, hs1, hs2⟩
  · rename_i hnempty
    rw [hfl]
    dsimp only
    split
    · exact ⟨L, hfl, hne, hbound, hc0, hc1, hs1, hs2⟩
    · obtain ⟨a, ha, -⟩ := pyIdx_some_of_lt hc0 hc1
      rw [ha]
      dsimp only
      rw [remapGo_closed L (computeListing env s.dataDir) s.index s.data s.mtimes
        hs1 hs2 hbound]
      dsimp only
      refine ⟨computeListing env s.dataDir, rfl, hnempty, ?_, ?_, ?_, by simp, by simp⟩
      · intro p hp
        simp only [List.mem_map] at hp
        obtain ⟨e, he, hpe⟩ := hp
        obtain ⟨e0, he0, hspec⟩ := List.mem_filterMap.1 he
        unfold specRemapEntry at hspec
        rcases hfn : pyIdx L e0.1 with _ | fname
        · rw [hfn] at hspec
          exact Option.noConfusion hspec
        · rw [hfn] at hspec
          dsimp only at hspec
          split at hspec
          · rename_i hmem
            have hidx : (computeListing env s.dataDir).indexOf fname <
                (computeListing env s.dataDir).length :=
              List.indexOf_lt_length.2 hmem
            have he1 : e.1 = (((computeListing env s.dataDir).indexOf fname : Nat) : Int) := by
              rw [← Option.some.inj hspec]
            rw [← hpe, he1]
            constructor
            · omega
            · exact_mod_cast hidx
          · exact Option.noConfusion hspec
      · dsimp only
        split
        · rename_i hmem
          omega
        · have : (computeListing env s.dataDir).length ≠ 0 := by
            intro h0
            exact hnempty (List.length_eq_zero.1 h0)
          omega
      · dsimp only
        split
        · rename_i hmem
          have := List.indexOf_lt_length.2 hmem
          exact_mod_cast this
        · have : (computeListing env s.dataDir).length ≠ 0 := by
            intro h0
            exact hnempty (List.length_eq_zero.1 h0)
          omega

theorem posInv_get (env : Env) (s : State) (p : Int)
    (hinv : PosInv s) (hmt : ∀ pa, (env.mtime pa).isSome)
    (h0 : 0 ≤ p) (hlen : ∀ L, s.fileList = some L → p < (L.length : Int)) :
    PosInv (get_data env s p).1 := by
  obtain ⟨L, hfl, hne, hbound, hc0, hc1, hs1, hs2⟩ := hinv
  by_cases hmem : p ∈ s.index
  · rw [get_data_hit hmem hs1]
    exact ⟨L, hfl, hne, hbound, h0, hlen L hfl, hs1, hs2⟩
  · obtain ⟨fname, hf, -⟩ := pyIdx_some_of_lt h0 (hlen L hfl)
    obtain ⟨m, hmtv⟩ := Option.isSome_iff_exists.1 (hmt (pathJoin s.dataDir fname))
    rw [get_data_miss hmem hfl hf hmtv]
    refine ⟨L, hfl, hne, ?_, h0, hlen L hfl, by simp [hs1], by simp [hs2]⟩
    intro q hq
    simp only [State.index, List.mem_append, List.mem_singleton] at hq
    rcases hq with hq | hq
    · exact hbound q hq
    · subst hq
      exact ⟨h0, hlen L hfl⟩

/-- Construction establishes the position invariant. -/

theorem posInv_init (env : Env) (d : String) (lim : Nat) (s : State)
    (h : initState env d lim = (s, .ok ())) : PosInv s := by
  unfold initState at h
  unfold update_file_list at h
  dsimp only at h
  split at h
  · injection h with h1 h2
    exact absurd h2 (by simp)
  · rename_i hne
    split at h
    · injection h with h1 h2
      subst h1
      have hmem : ((computeListing env d).getLast?.getD "") ∈ computeListing env d := by
        rw [List.getLast?_eq_getLast (computeListing env d) hne]
        exact List.getLast_mem hne
      have hlt := List.indexOf_lt_length.2 hmem
      refine ⟨computeListing env d, rfl, hne, by simp, ?_, ?_, rfl, rfl⟩
      · dsimp only
        rw [if_pos hmem]
        omega
      · dsimp only
        rw [if_pos hmem]
        exact_mod_cast hlt
    · injection h with h1 h2
      exact absurd h2 (by simp)

theorem posInv_changeDir (env : Env) (s : State) (d : String)
    (hinv : PosInv s) (hmt : ∀ pa, (env.mtime pa).isSome) :
    PosInv (change_data_dir env s d).1 := by
  obtain ⟨L, hfl, hne, hbound, hc0, hc1, hs1, hs2⟩ := hinv
  have hinv0 : PosInv { s with dataDir := d, index := [], data := [], mtimes := [] } :=
    ⟨L, by simpa using hfl, hne, by simp, hc0, hc1, rfl, rfl⟩
  unfold change_data_dir
  dsimp only
  rcases hup : update_file_list env
      { s with dataDir := d, index := [], data := [], mtimes := [] } with ⟨s2, r⟩
  have hinv2 : PosInv s2 := by
    have := posInv_update env _ hinv0
    rw [hup] at this
    exact this
  cases r with
  | error e => exact hinv2
  | ok u =>
    cases u
    dsimp only
    obtain ⟨L2, hfl2, hne2, hbound2, hc02, hc12, hs12, hs22⟩ := hinv2
    rw [hfl2]
    dsimp only
    obtain ⟨fname, hfn, -⟩ := pyIdx_some_of_lt hc02 hc12
    rw [hfn]
    dsimp only
    obtain ⟨m, hmtv⟩ := Option.isSome_iff_exists.1
      (hmt (pathJoin s2.dataDir fname))
    rw [hmtv]
    refine ⟨L2, by simpa using hfl2, hne2, ?_, hc02, hc12, by simp [hs12], by simp [hs22]⟩
    intro q hq
    simp only [State.index, List.mem_append, List.mem_singleton] at hq
    rcases hq with hq | hq
    · exact hbound2 q hq
    · subst hq
      exact ⟨hc02, hc12⟩

/-- Under the invariant and working stats, the invalidation pass
succeeds and preserves bounds and synchrony. -/
theorem invalidateGo_inv (env : Env) (dir : String) (L : List String)
    (hmt : ∀ pa, (env.mtime pa).isSome) :
    ∀ (k : Nat) (idx : List Int) (dat mt : List Nat),
      k ≤ idx.length → idx.length = dat.length → idx.length = mt.length →
      (∀ p ∈ idx, 0 ≤ p ∧ p < (L.length : Int)) →
      ∃ i2 d2 m2,
        invalidateGo env dir (some L) k idx dat mt = ((i2, d2, m2), none) ∧
        i2.length = d2.length ∧ i2.length = m2.length ∧
        (∀ p ∈ i2, 0 ≤ p ∧ p < (L.length : Int)) := by
  intro k
  induction k with
  | zero =>
    intro idx dat mt hk hs1 hs2 hb
    exact ⟨idx, dat, mt, rfl, hs1, hs2, hb⟩
  | succ n ih =>
    intro idx dat mt hk hs1 hs2 hb
    unfold invalidateGo
    have hn : n < idx.length := by omega
    obtain ⟨p, hp, hp2⟩ := @pyIdx_some_of_lt Int idx (n : Int)
      (by omega) (by exact_mod_cast hn)
    have hpmem : p ∈ idx := List.get?_mem hp2
    rw [hp]
    dsimp only
    obtain ⟨fname, hfn, -⟩ := pyIdx_some_of_lt (hb p hpmem).1 (hb p hpmem).2
    rw [hfn]
    dsimp only
    obtain ⟨m, hmtv⟩ := Option.isSome_iff_exists.1 (hmt (pathJoin dir fname))
    rw [hmtv]
    dsimp only
    obtain ⟨stored, hst, -⟩ := @pyIdx_some_of_lt Nat mt (n : Int)
      (by omega) (by exact_mod_cast (show n < mt.length by omega))
    rw [hst]
    dsimp only
    split
    · rw [if_pos (by omega)]
      have hb2 : ∀ q ∈ idx.eraseIdx n, 0 ≤ q ∧ q < (L.length : Int) :=
        fun q hq => hb q ((idx.eraseIdx_sublist n).mem hq)
      exact ih (idx.eraseIdx n) (dat.eraseIdx n) (mt.eraseIdx n)
        (by rw [List.length_eraseIdx_of_lt hn]; omega)
        (by rw [List.length_eraseIdx_of_lt hn, List.length_eraseIdx_of_lt (by omega)]; omega)
        (by rw [List.length_eraseIdx_of_lt hn, List.length_eraseIdx_of_lt (by omega)]; omega)
        hb2
    · exact ih idx dat mt (by omega) hs1 hs2 hb

/-- A single eviction on a nonempty, synchronized cache succeeds and
preserves bounds and synchrony, removing exactly one entry. -/
theorem evictFarthest_inv (P : Int → Prop) (c : Int) (idx : List Int) (dat mt : List Nat)
    (hnil : idx ≠ []) (hs1 : idx.length = dat.length) (hs2 : idx.length = mt.length)
    (hb : ∀ p ∈ idx, P p) :
    ∃ i2 d2 m2, evictFarthest c idx dat mt = ((i2, d2, m2), none) ∧
      i2.length + 1 = idx.length ∧ i2.length = d2.length ∧ i2.length = m2.length ∧
      (∀ p ∈ i2, P p) := by
  rcases hmax : (idx.map (fun i => (i - c).natAbs)).max? with _ | maxD
  · rw [List.max?_eq_none_iff] at hmax
    simp only [List.map_eq_nil_iff] at hmax
    exact absurd hmax hnil
  · have hmem : maxD ∈ idx.map (fun i => (i - c).natAbs) :=
      List.max?_mem (fun a b => max_choice a b) hmax
    have hj : (idx.map (fun i => (i - c).natAbs)).indexOf maxD <
        (idx.map (fun i => (i - c).natAbs)).length :=
      List.indexOf_lt_length.2 hmem
    rw [List.length_map] at hj
    have hev : evictFarthest c idx dat mt =
        ((idx.eraseIdx ((idx.map (fun i => (i - c).natAbs)).indexOf maxD),
          dat.eraseIdx ((idx.map (fun i => (i - c).natAbs)).indexOf maxD),
          mt.eraseIdx ((idx.map (fun i => (i - c).natAbs)).indexOf maxD)), none) := by
      unfold evictFarthest
      dsimp only
      rw [hmax]
      dsimp only
      rw [if_pos ⟨by omega, by omega⟩]
    refine ⟨_, _, _, hev, List.length_eraseIdx_add_one hj, ?_, ?_, ?_⟩
    · rw [List.length_eraseIdx_of_lt hj, List.length_eraseIdx_of_lt (by omega)]
      omega
    · rw [List.length_eraseIdx_of_lt hj, List.length_eraseIdx_of_lt (by omega)]
      omega
    · exact fun q hq => hb q ((idx.eraseIdx_sublist _).mem hq)

/-- The trim loop on synchronized, bounded inputs succeeds and
preserves bounds and synchrony. -/
theorem trimLoop_inv (P : Int → Prop) (limit : Nat) (c : Int) :
    ∀ (fuel : Nat) (idx : List Int) (dat mt : List Nat),
      idx.length = dat.length → idx.length = mt.length → (∀ p ∈ idx, P p) →
      ∃ i2 d2 m2, trimLoop limit c fuel idx dat mt = ((i2, d2, m2), none) ∧
        i2.length = d2.length ∧ i2.length = m2.length ∧ i2.length ≤ idx.length ∧
        (∀ p ∈ i2, P p) := by
  intro fuel
  induction fuel with
  | zero =>
    intro idx dat mt hs1 hs2 hb
    exact ⟨idx, dat, mt, rfl, hs1, hs2, le_refl _, hb⟩
  | succ n ih =>
    intro idx dat mt hs1 hs2 hb
    unfold trimLoop
    split
    · rename_i hguard
      have hnil : idx ≠ [] := by
        intro h0
        rw [h0] at hguard
        simp at hguard
      obtain ⟨i2, d2, m2, hev, hl, hls1, hls2, hb2⟩ :=
        evictFarthest_inv P c idx dat mt hnil hs1 hs2 hb
      rw [hev]
      obtain ⟨i3, d3, m3, htr, ha, hbb, hc, hd⟩ := ih i2 d2 m2 hls1 hls2 hb2
      exact ⟨i3, d3, m3, htr, ha, hbb, by omega, hd⟩
    · exact ⟨idx, dat, mt, rfl, hs1, hs2, le_refl _, hb⟩

/-- A load of an in-range candidate with working stats completes and
preserves the invariant. -/
theorem loadPhase_inv (env : Env) (s : State) (l : List String) (li : Int) (b : Bool)
    (hfl : s.fileList = some l) (hne : l ≠ [])
    (hb : ∀ p ∈ s.index, 0 ≤ p ∧ p < (l.length : Int))
    (hc0 : 0 ≤ s.currentIndex) (hc1 : s.currentIndex < (l.length : Int))
    (hs1 : s.index.length = s.data.length) (hs2 : s.index.length = s.mtimes.length)
    (hli0 : 0 ≤ li) (hli1 : li < (l.length : Int))
    (hmt : ∀ pa, (env.mtime pa).isSome) :
    ∃ s', loadPhase env s l li b = .done s' (.loaded b) ∧ PosInv s' := by
  obtain ⟨fname, hfn, -⟩ := pyIdx_some_of_lt hli0 hli1
  obtain ⟨m, hmtv⟩ := Option.isSome_iff_exists.1 (hmt (pathJoin s.dataDir fname))
  have key : loadPhase env s l li b = .done { s with
      index := s.index ++ [li],
      data := s.data ++ [env.decode (pathJoin s.dataDir fname)],
      mtimes := s.mtimes ++ [m] } (.loaded b) := by
    unfold loadPhase
    rw [hfn]
    dsimp only
    rw [hmtv]
  refine ⟨_, key, ?_⟩
  · refine ⟨l, by simpa using hfl, hne, ?_, hc0, hc1, by simp [hs1], by simp [hs2]⟩
    intro q hq
    simp only [State.index, List.mem_append, List.mem_singleton] at hq
    rcases hq with hq | hq
    · exact hb q hq
    · subst hq
      exact ⟨hli0, hli1⟩

/-- The trim/evict/load phase ends in a `done` or `raised` state that
satisfies the invariant. -/
theorem evictAndLoad_inv (env : Env) (s : State) (l : List String) (li : Int) (b : Bool)
    (hfl : s.fileList = some l) (hne : l ≠ [])
    (hb : ∀ p ∈ s.index, 0 ≤ p ∧ p < (l.length : Int))
    (hc0 : 0 ≤ s.currentIndex) (hc1 : s.currentIndex < (l.length : Int))
    (hs1 : s.index.length = s.data.length) (hs2 : s.index.length = s.mtimes.length)
    (hli0 : 0 ≤ li) (hli1 : li < (l.length : Int))
    (hmt : ∀ pa, (env.mtime pa).isSome) :
    ∃ s', PosInv s' ∧
      ((∃ out, evictAndLoad env s l li b = .done s' out) ∨
       (∃ e, evictAndLoad env s l li b = .raised s' e)) := by
  obtain ⟨i2, d2, m2, htr, hts1, hts2, htle, htb⟩ :=
    trimLoop_inv (fun p => 0 ≤ p ∧ p < (l.length : Int)) s.cacheLimit s.currentIndex
      s.index.length s.index s.data s.mtimes hs1 hs2 hb
  by_cases hfull : i2.length = s.cacheLimit
  · rcases hmax2 : (i2.map (fun i => (i - s.currentIndex).natAbs)).max? with _ | maxD
    · have hev : evictAndLoad env s l li b =
          .raised { s with index := i2, data := d2, mtimes := m2 } .valueError := by
        unfold evictAndLoad
        rw [htr]
        dsimp only
        rw [if_pos hfull]
        rw [hmax2]
      exact ⟨({ s with index := i2, data := d2, mtimes := m2 } : State),
        ⟨l, by simpa using hfl, hne, htb, hc0, hc1, hts1, hts2⟩,
        Or.inr ⟨_, hev⟩⟩
    · by_cases hrej : maxD ≤ (li - s.currentIndex).natAbs
      · have hev : evictAndLoad env s l li b =
            .done { s with index := i2, data := d2, mtimes := m2 } .rejected := by
          unfold evictAndLoad
          rw [htr]
          dsimp only
          rw [if_pos hfull]
          rw [hmax2]
          dsimp only
          rw [if_pos hrej]
        exact ⟨({ s with index := i2, data := d2, mtimes := m2 } : State),
          ⟨l, by simpa using hfl, hne, htb, hc0, hc1, hts1, hts2⟩,
          Or.inl ⟨_, hev⟩⟩
      · have hnil2 : i2 ≠ [] := by
          intro h0
          rw [h0] at hmax2
          simp at hmax2
        obtain ⟨i3, d3, m3, hev2, hl3, hs13, hs23, hb3⟩ :=
          evictFarthest_inv (fun p => 0 ≤ p ∧ p < (l.length : Int)) s.currentIndex
            i2 d2 m2 hnil2 hts1 hts2 htb
        obtain ⟨s4, hload, hinv4⟩ := loadPhase_inv env
          { s with index := i3, data := d3, mtimes := m3 } l li b
          (by simpa using hfl) hne hb3 hc0 hc1 hs13 hs23 hli0 hli1 hmt
        have hev : evictAndLoad env s l li b = .done s4 (.loaded b) := by
          unfold evictAndLoad
          rw [htr]
          dsimp only
          rw [if_pos hfull]
          rw [hmax2]
          dsimp only
          rw [if_neg hrej]
          rw [hev2]
          exact hload
        exact ⟨s4, hinv4, Or.inl ⟨_, hev⟩⟩
  · obtain ⟨s4, hload, hinv4⟩ := loadPhase_inv env
      { s with index := i2, data := d2, mtimes := m2 } l li b
      (by simpa using hfl) hne htb hc0 hc1 hts1 hts2 hli0 hli1 hmt
    have hev : evictAndLoad env s l li b = .done s4 (.loaded b) := by
      unfold evictAndLoad
      rw [htr]
      dsimp only
      rw [if_neg hfull]
      exact hload
    exact ⟨s4, hinv4, Or.inl ⟨_, hev⟩⟩

theorem posInv_tick (env : Env) (fuel : Nat) (s : State)
    (hinv : PosInv s) (hmt : ∀ pa, (env.mtime pa).isSome) :
    (∀ s' out, tick env fuel s = .done s' out → PosInv s') ∧
    (∀ s' e, tick env fuel s = .raised s' e → PosInv s') := by
  obtain ⟨L, hfl, hne, hbound, hc0, hc1, hs1, hs2⟩ := hinv
  obtain ⟨i1, d1, m1, hinval, hvs1, hvs2, hvb⟩ :=
    invalidateGo_inv env s.dataDir L hmt s.index.length s.index s.data s.mtimes
      (le_refl _) hs1 hs2 hbound
  have hinvalS : invalidateGo env s.dataDir s.fileList s.index.length s.index s.data s.mtimes
      = ((i1, d1, m1), none) := by
    rw [hfl]
    exact hinval
  by_cases hp : s.paused = true
  · constructor
    · intro s' out h
      unfold tick at h
      rw [if_pos hp] at h
      injection h with h1 h2
      subst h1
      exact ⟨L, hfl, hne, hbound, hc0, hc1, hs1, hs2⟩
    · intro s' e h
      unfold tick at h
      rw [if_pos hp] at h
      exact TickResult.noConfusion h
  · have hinvA : PosInv { s with index := i1, data := d1, mtimes := m1 } :=
      ⟨L, by simpa using hfl, hne, hvb, hc0, hc1, hvs1, hvs2⟩
    have hinvU := posInv_update env { s with index := i1, data := d1, mtimes := m1 } hinvA
    rcases hup : update_file_list env { s with index := i1, data := d1, mtimes := m1 }
      with ⟨s₂, r⟩
    rw [hup] at hinvU
    simp only at hinvU
    cases r with
    | error e1 =>
      constructor
      · intro s' out h
        unfold tick at h
        rw [if_neg hp, hinvalS] at h
        dsimp only at h
        rw [hup] at h
        exact TickResult.noConfusion h
      · intro s' e h
        unfold tick at h
        rw [if_neg hp, hinvalS] at h
        dsimp only at h
        rw [hup] at h
        injection h with h1 h2
        subst h1
        exact hinvU
    | ok u =>
      cases u
      obtain ⟨L2, hfl2, hne2, hbound2, hc02, hc12, hs12, hs22⟩ := hinvU
      by_cases hac : L2.length ≤ s₂.index.length
      · constructor
        · intro s' out h
          unfold tick at h
          rw [if_neg hp, hinvalS] at h
          dsimp only at h
          rw [hup] at h
          dsimp only at h
          rw [hfl2] at h
          dsimp only at h
          rw [if_pos hac] at h
          injection h with h1 h2
          subst h1
          exact ⟨L2, hfl2, hne2, hbound2, hc02, hc12, hs12, hs22⟩
        · intro s' e h
          unfold tick at h
          rw [if_neg hp, hinvalS] at h
          dsimp only at h
          rw [hup] at h
          dsimp only at h
          rw [hfl2] at h
          dsimp only at h
          rw [if_pos hac] at h
          exact TickResult.noConfusion h
      · rcases hsl : searchLoop
            (fun x => decide (x ∈ s₂.index) || decide (x < 0) ||
              decide ((L2.length : Int) ≤ x))
            s₂.currentIndex s₂.cacheLimit fuel (s.currentIndex + 1)
          with _ | ⟨li, b⟩
        · constructor
          · intro s' out h
            unfold tick at h
            rw [if_neg hp, hinvalS] at h
            dsimp only at h
            rw [hup] at h
            dsimp only at h
            rw [hfl2] at h
            dsimp only at h
            rw [if_neg hac, hsl] at h
            exact TickResult.noConfusion h
          · intro s' e h
            unfold tick at h
            rw [if_neg hp, hinvalS] at h
            dsimp only at h
            rw [hup] at h
            dsimp only at h
            rw [hfl2] at h
            dsimp only at h
            rw [if_neg hac, hsl] at h
            exact TickResult.noConfusion h
        · by_cases hoor : li < 0 ∨ (L2.length : Int) ≤ li
          · constructor
            · intro s' out h
              unfold tick at h
              rw [if_neg hp, hinvalS] at h
              dsimp only at h
              rw [hup] at h
              dsimp only at h
              rw [hfl2] at h
              dsimp only at h
              rw [if_neg hac, hsl] at h
              dsimp only at h
              rw [if_pos hoor] at h
              injection h with h1 h2
              subst h1
              exact ⟨L2, hfl2, hne2, hbound2, hc02, hc12, hs12, hs22⟩
            · intro s' e h
              unfold tick at h
              rw [if_neg hp, hinvalS] at h
              dsimp only at h
              rw [hup] at h
              dsimp only at h
              rw [hfl2] at h
              dsimp only at h
              rw [if_neg hac, hsl] at h
              dsimp only at h
              rw [if_pos hoor] at h
              exact TickResult.noConfusion h
          · obtain ⟨s3, hinv3, hcase⟩ := evictAndLoad_inv env s₂ L2 li b hfl2 hne2
              hbound2 hc02 hc12 hs12 hs22 (by omega) (by omega) hmt
            constructor
            · intro s' out h
              unfold tick at h
              rw [if_neg hp, hinvalS] at h
              dsimp only at h
              rw [hup] at h
              dsimp only at h
              rw [hfl2] at h
              dsimp only at h
              rw [if_neg hac, hsl] at h
              dsimp only at h
              rw [if_neg hoor] at h
              rcases hcase with ⟨out2, he2⟩ | ⟨e2, he2⟩
              · rw [he2] at h
                injection h with h1 h2
                subst h1
                exact hinv3
              · rw [he2] at h
                exact TickResult.noConfusion h
            · intro s' e h
              unfold tick at h
              rw [if_neg hp, hinvalS] at h
              dsimp only at h
              rw [hup] at h
              dsimp only at h
              rw [hfl2] at h
              dsimp only at h
              rw [if_neg hac, hsl] at h
              dsimp only at h
              rw [if_neg hoor] at h
              rcases hcase with ⟨out2, he2⟩ | ⟨e2, he2⟩
              · rw [he2] at h
                exact TickResult.noConfusion h
              · rw [he2] at h
                injection h with h1 h2
                subst h1
                exact hinv3

theorem reachable_posInv : ∀ s : State, Reachable s → PosInv s := by
  intro s h
  induction h with
  | construct env d lim s hmt hinit => exact posInv_init env d lim s hinit
  | get env s s' p r hr hmt h0 hlen hstep ih =>
    have := posInv_get env s p ih hmt h0 hlen
    rw [hstep] at this
    exact this
  | refresh env s s' r hr hstep ih =>
    have := posInv_update env s ih
    rw [hstep] at this
    exact this
  | changeDir env s s' d r hr hmt hstep ih =>
    have := posInv_changeDir env s d ih hmt
    rw [hstep] at this
    exact this
  | bgTickDone env fuel s s' out hr hmt hstep ih =>
    exact (posInv_tick env fuel s ih hmt).1 s' out hstep
  | bgTickRaised env fuel s s' e hr hmt hstep ih =>
    exact (posInv_tick env fuel s ih hmt).2 s' e hstep
  | setPaused s b hr ih =>
    obtain ⟨L, h1, h2, h3, h4, h5, h6, h7⟩ := ih
    exact ⟨L, h1, h2, h3, h4, h5, h6, h7⟩

/-- C3 (counterexample): both parts of the invariant fail on the code.
(1) In-range: `get_data(-1)` on the fresh `[a, b, c]` state inserts the
position `-1`, which is not in `[0, 3)` (Python negative indexing, no
bounds check).  (2) Distinctness: the tick from `sDupStart` against
`envSeven` (files replaced and the listing shrunk under a resident
cache) ends with `index = [2, 2]` — position 2 resident twice — because
the abandoned search's break candidate was already cached. -/
theorem c3_counterexample :
    ((get_data envABC sFreshABC (-1)).1.index = [-1] ∧ ¬ ((0 : Int) ≤ -1)) ∧
    (tick envSeven 50 sDupStart = .done sDupEnd (.loaded true) ∧
     sDupEnd.index = [2, 2] ∧ ¬ sDupEnd.index.Nodup) := by
  refine ⟨⟨rfl, by decide⟩, rfl, rfl, by decide⟩

/-- C3 (amended): in every state reachable through in-bounds `get`
calls, listing refreshes, directory switches, pause toggles and
background ticks — in environments where every stat succeeds — a
non-empty listing is present and every cached position, as well as
CurrentPosition, is a valid index into it (`0 ≤ p < len(Listing)`).
Pairwise distinctness of cached positions, however, does NOT hold (see
the counterexample), so only the in-range half of the claim survives. -/
theorem c3_amended (s : State) (hr : Reachable s) :
    ∃ L, s.fileList = some L ∧ L ≠ [] ∧
      (∀ p ∈ s.index, 0 ≤ p ∧ p < (L.length : Int)) ∧
      0 ≤ s.currentIndex ∧ s.currentIndex < (L.length : Int) := by
  obtain ⟨L, h1, h2, h3, h4, h5, -, -⟩ := reachable_posInv s hr
  exact ⟨L, h1, h2, h3, h4, h5⟩

theorem c3_amended_witness : 0 ≤ sFreshAB.currentIndex := by
  obtain ⟨L, -, -, -, h4, -⟩ := c3_amended sFreshAB
    (Reachable.construct envAB "d" 1 sFreshAB (fun pa => rfl) rfl)
  exact h4


end EMCViewer
